import Mathlib

/-!
# PCH task queue (`pchtaskqueue.cpp`)

A shallow embedding of `ClangBackEnd::PchTaskQueue`: the two pending collections, the
merge and removal operations with their progress accounting, and the scheduling tick.

Vectors are lists, `ProjectPartId` is its underlying integer, a closure is the data it
captures, and every call on a collaborator (progress counter, schedulers) is recorded in a
log kept beside the state, so that "is called once" and "is not called" can be stated.
-/

namespace ClangBackEnd

/-! ## Data model -/

/-- The identifier of a project part: a wrapper around one integer, ordered by it (the
comparisons below are written on `Int` directly). -/
abbrev ProjectPartId := Int

/-- The type `ProjectPartIds`: a vector of identifiers. -/
abbrev ProjectPartIds := List ProjectPartId

/-- A pending precompiled-header build. The fields this file reads or writes are kept by name;
`rest` stands for all the other members of the class, which the queue only moves around. -/
structure PchTask where
  systemPchPath : String
  projectPartIds : ProjectPartIds
  includes : List Int
  preIncludeSearchPath : String
  rest : String
  deriving DecidableEq, Repr

/-- The type `PchTasks`: a vector of tasks. -/
abbrev PchTasks := List PchTask

/-- The accessor `PchTask::projectPartId()`, the front of `projectPartIds`. The source's
`front()` is defined only on a non-empty vector: the value given here for an empty vector (the
default-constructed id) stands for no behaviour of the source, and every statement about a value
of `projectPartId()` is made for tasks whose `projectPartIds` is non-empty (`NonEmptyIds`,
`SingleId`, or `projectPartIds ≠ []`). -/
def PchTask.projectPartId (t : PchTask) : Int := t.projectPartIds.headD (-1)

/-- The `operator<` of `std::vector`, i.e. `std::lexicographical_compare` on identifiers. -/
def lexicographical_compare : List Int → List Int → Bool
  | [], [] => false
  | [], _ :: _ => true
  | _ :: _, [] => false
  | a :: as, b :: bs =>
    if a < b then true else if b < a then false else lexicographical_compare as bs

/-- The lambda `compare` of `addPchTasks`: `first.projectPartIds < second.projectPartIds`. -/
def compare (first second : PchTask) : Bool :=
  lexicographical_compare first.projectPartIds second.projectPartIds

/-- The first overload of `CompareDifference`: task against id. -/
def CompareDifference.taskId (first : PchTask) (second : Int) : Bool :=
  decide (first.projectPartId < second)

/-- The second overload of `CompareDifference`: id against task. -/
def CompareDifference.idTask (first : Int) (second : PchTask) : Bool :=
  decide (first < second.projectPartId)

/-! ## Machine integers -/

/-- Conversion of an unsigned value to `int` (32 bits, two's complement): `int(x)`. -/
def intCast (x : Nat) : Int :=
  if x % 2 ^ 32 < 2 ^ 31 then ((x % 2 ^ 32 : Nat) : Int) else ((x % 2 ^ 32 : Nat) : Int) - 2 ^ 32

/-- Subtraction of two `std::size_t` values (64 bits, wrapping). -/
def sizeSub (a b : Nat) : Nat := (a % 2 ^ 64 + (2 ^ 64 - b % 2 ^ 64)) % 2 ^ 64

/-! ## Progress counter -/

/-- A call received by the progress counter. -/
inductive ProgressCall where
  | addTotal (n : Int)
  | removeTotal (n : Int)
  deriving DecidableEq, Repr

/-- The progress counter, as the calls it has received, oldest first. -/
abbrev ProgressCounter := List ProgressCall

/-! ## Ordered merge and difference -/

/-- Modelled from the spec: `Utils::set_union` (utils/algorithm.h) is not among the sources.
The spec asks for a linear merge of two key-ordered ranges that produces the union ordered by
key and, when a key appears in both ranges, takes the element of the first range (`new`) and
skips the one of the second. -/
def set_union (comp : PchTask → PchTask → Bool) : PchTasks → PchTasks → PchTasks
  | [], ys => ys
  | x :: xs, [] => x :: xs
  | x :: xs, y :: ys =>
    if comp y x then y :: set_union comp (x :: xs) ys
    else if comp x y then x :: set_union comp xs (y :: ys)
    else x :: set_union comp xs ys
termination_by xs ys => xs.length + ys.length

/-- The algorithm `std::set_difference` of the C++ standard library with a heterogeneous
comparator: walks both ranges, copies an element of the first range that orders before the
current element of the second, advances the second when it orders first, and drops the
element of the first range (advancing both) when neither orders before the other. -/
def set_difference (compAB : PchTask → ProjectPartId → Bool)
    (compBA : ProjectPartId → PchTask → Bool) : PchTasks → ProjectPartIds → PchTasks
  | [], _ => []
  | x :: xs, [] => x :: xs
  | x :: xs, y :: ys =>
    if compAB x y then x :: set_difference compAB compBA xs (y :: ys)
    else if compBA y x then set_difference compAB compBA (x :: xs) ys
    else set_difference compAB compBA xs ys
termination_by xs ys => xs.length + ys.length

/-- The function `PchTaskQueue::addPchTasks`: the merged destination and the progress counter
after the one `addTotal` call. -/
def addPchTasks (newPchTasks destination : PchTasks) (m_progressCounter : ProgressCounter) :
    PchTasks × ProgressCounter :=
  let oldSize := destination.length
  let mergedPchTasks := set_union compare newPchTasks destination
  (mergedPchTasks,
    m_progressCounter ++ [ProgressCall.addTotal (intCast (sizeSub mergedPchTasks.length oldSize))])

/-- The function `PchTaskQueue::removePchTasksByProjectPartId`: the filtered destination and
the progress counter after the one `removeTotal` call. -/
def removePchTasksByProjectPartId (projectsPartIds : ProjectPartIds) (destination : PchTasks)
    (m_progressCounter : ProgressCounter) : PchTasks × ProgressCounter :=
  let oldSize := destination.length
  let notToBeRemovedProjectParts :=
    set_difference CompareDifference.taskId CompareDifference.idTask destination projectsPartIds
  (notToBeRemovedProjectParts,
    m_progressCounter ++
      [ProgressCall.removeTotal (intCast (sizeSub oldSize notToBeRemovedProjectParts.length))])

/-! ## Schedulers and closures -/

/-- The struct `SlotUsage` a scheduler reports; both members are `uint` in the source. -/
structure SlotUsage where
  free : Nat
  used : Nat
  deriving DecidableEq, Repr

/-- The closure type `PchTaskQueue::Task`, as the task it captured and the `convert` lambda
that built it (`createProjectTasks` or `createSystemTasks`). -/
inductive Task where
  | project (pchTask : PchTask)
  | system (pchTask : PchTask)
  deriving DecidableEq, Repr

/-- The scheduler collaborator, over any state `σ`: the slot query and the batch submission. -/
structure TaskSchedulerInterface (σ : Type) where
  slotUsage : σ → SlotUsage
  addTasks : List Task → σ → σ

/-- A call received by a scheduler. -/
inductive SchedulerCall where
  | slotUsage
  | addTasks (tasks : List Task)
  deriving DecidableEq, Repr

/-- The members of `PchTaskQueue`, with the calls each scheduler has received, oldest first. -/
structure PchTaskQueue (σ : Type) where
  m_systemPchTasks : PchTasks
  m_projectPchTasks : PchTasks
  m_systemPchTaskScheduler : σ
  m_projectPchTaskScheduler : σ
  m_progressCounter : ProgressCounter
  systemSchedulerCalls : List SchedulerCall
  projectSchedulerCalls : List SchedulerCall

/-- The function `PchTaskQueue::createProjectTasks`: one closure per task, in order. -/
def createProjectTasks (pchTasks : PchTasks) : List Task := pchTasks.map Task.project

/-- The function `PchTaskQueue::createSystemTasks`: one closure per task, in order. -/
def createSystemTasks (pchTasks : PchTasks) : List Task := pchTasks.map Task.system

/-- The iterator `std::prev(v.end(), n)` as an index into a vector of `size` elements. It is
defined only when it stays inside the vector, that is for `0 ≤ n ≤ size`. -/
def prevEnd (size : Nat) (n : Int) : Option Nat :=
  if 0 ≤ n ∧ n ≤ (size : Int) then some (size - n.toNat) else none

/-- The function `PchTaskQueue::addSystemPchTasks`. -/
def addSystemPchTasks {σ : Type} (pchTasks : PchTasks) (q : PchTaskQueue σ) : PchTaskQueue σ :=
  let r := addPchTasks pchTasks q.m_systemPchTasks q.m_progressCounter
  { q with m_systemPchTasks := r.1, m_progressCounter := r.2 }

/-- The function `PchTaskQueue::addProjectPchTasks`. -/
def addProjectPchTasks {σ : Type} (pchTasks : PchTasks) (q : PchTaskQueue σ) : PchTaskQueue σ :=
  let r := addPchTasks pchTasks q.m_projectPchTasks q.m_progressCounter
  { q with m_projectPchTasks := r.1, m_progressCounter := r.2 }

/-- The function `PchTaskQueue::removePchTasks`. -/
def removePchTasks {σ : Type} (projectsPartIds : ProjectPartIds) (q : PchTaskQueue σ) :
    PchTaskQueue σ :=
  let r := removePchTasksByProjectPartId projectsPartIds q.m_projectPchTasks q.m_progressCounter
  { q with m_projectPchTasks := r.1, m_progressCounter := r.2 }

/-- The function `PchTaskQueue::processSystemPchTasks`; `none` when `std::prev` would leave
the vector. -/
def processSystemPchTasks {σ : Type} (I : TaskSchedulerInterface σ) (q : PchTaskQueue σ) :
    Option (PchTaskQueue σ) :=
  let freeTaskCount := (I.slotUsage q.m_systemPchTaskScheduler).free
  match prevEnd q.m_systemPchTasks.length
      (min (intCast freeTaskCount) (intCast q.m_systemPchTasks.length)) with
  | none => none
  | some newEnd =>
    let tasks := createSystemTasks (q.m_systemPchTasks.drop newEnd)
    some { q with
      m_systemPchTaskScheduler := I.addTasks tasks q.m_systemPchTaskScheduler
      m_systemPchTasks := q.m_systemPchTasks.take newEnd
      systemSchedulerCalls :=
        q.systemSchedulerCalls ++ [SchedulerCall.slotUsage, SchedulerCall.addTasks tasks] }

/-- The function `PchTaskQueue::processProjectPchTasks`; `none` when `std::prev` would leave
the vector. -/
def processProjectPchTasks {σ : Type} (I : TaskSchedulerInterface σ) (q : PchTaskQueue σ) :
    Option (PchTaskQueue σ) :=
  let systemRunningTaskCount := (I.slotUsage q.m_systemPchTaskScheduler).used
  let q1 := { q with systemSchedulerCalls := q.systemSchedulerCalls ++ [SchedulerCall.slotUsage] }
  if systemRunningTaskCount = 0 then
    let freeTaskCount := (I.slotUsage q1.m_projectPchTaskScheduler).free
    match prevEnd q1.m_projectPchTasks.length
        (min (intCast freeTaskCount) (intCast q1.m_projectPchTasks.length)) with
    | none => none
    | some newEnd =>
      let tasks := createProjectTasks (q1.m_projectPchTasks.drop newEnd)
      some { q1 with
        m_projectPchTaskScheduler := I.addTasks tasks q1.m_projectPchTaskScheduler
        m_projectPchTasks := q1.m_projectPchTasks.take newEnd
        projectSchedulerCalls :=
          q1.projectSchedulerCalls ++ [SchedulerCall.slotUsage, SchedulerCall.addTasks tasks] }
  else some q1

/-- The function `PchTaskQueue::processEntries`: the system step, then the project step. -/
def processEntries {σ : Type} (I : TaskSchedulerInterface σ) (q : PchTaskQueue σ) :
    Option (PchTaskQueue σ) :=
  (processSystemPchTasks I q).bind (processProjectPchTasks I)

/-! ## Vocabulary of the properties -/

/-- Strictly ascending by `projectPartIds` under the vector order: sorted, no equal keys. -/
def StrictAsc (ts : PchTasks) : Prop := ts.Pairwise (fun a b => compare a b = true)

/-- Strictly ascending by `projectPartId()`. -/
def StrictAscById (ts : PchTasks) : Prop :=
  ts.Pairwise (fun a b => a.projectPartId < b.projectPartId)

/-- The keys of a collection: the `projectPartIds` of its tasks, in order. -/
def keys (ts : PchTasks) : List ProjectPartIds := ts.map PchTask.projectPartIds

/-- The number of keys of `a` that are not keys of `b`. -/
def newKeyCount (a b : PchTasks) : Nat :=
  (a.filter (fun t => decide (t.projectPartIds ∉ keys b))).length

/-- The number of tasks of `ts` whose `projectPartId()` is a member of `ids`. -/
def matchCount (ids : ProjectPartIds) (ts : PchTasks) : Nat :=
  (ts.filter (fun t => decide (t.projectPartId ∈ ids))).length

/-- Modelled from the spec: `ProgressCounter` (progresscounter.h) is not among the sources.
The total it tracks rises by `n` on `addTotal(n)` and falls by `n` on `removeTotal(n)`. -/
def progressTotal : ProgressCounter → Int
  | [] => 0
  | ProgressCall.addTotal n :: cs => n + progressTotal cs
  | ProgressCall.removeTotal n :: cs => progressTotal cs - n

/-- The tasks with the one-element keys `[0], [1], ..., [n - 1]`, in this order, all other
fields empty. -/
def ascendingTasks (n : Nat) : PchTasks :=
  (List.range n).map (fun (i : Nat) => PchTask.mk "" [Int.ofNat i] [] "" "")

/-- The ids `0, 1, ..., n - 1`, in this order. -/
def ascendingIds (n : Nat) : ProjectPartIds := (List.range n).map (fun (i : Nat) => Int.ofNat i)

/-- A scheduler that is just its slot usage: a submission of `n` closures raises `used` by
`n` (and takes the slots from `free`), and nothing completes in between. -/
def countingScheduler : TaskSchedulerInterface SlotUsage where
  slotUsage := fun s => s
  addTasks := fun tasks s => { free := s.free - tasks.length, used := s.used + tasks.length }

/-- A queue over `countingScheduler` with the given collections and slot usages, and empty
call logs. -/
def queueOf (systemPchTasks projectPchTasks : PchTasks) (systemUsage projectUsage : SlotUsage) :
    PchTaskQueue SlotUsage where
  m_systemPchTasks := systemPchTasks
  m_projectPchTasks := projectPchTasks
  m_systemPchTaskScheduler := systemUsage
  m_projectPchTaskScheduler := projectUsage
  m_progressCounter := []
  systemSchedulerCalls := []
  projectSchedulerCalls := []

/-! ## Invoking a closure -/

/-- The result `ProjectPartPch` the creator reports: the members the closures read. -/
structure ProjectPartPch where
  pchPath : String
  lastModified : Int
  deriving DecidableEq, Repr

/-- A call a closure makes on one of its collaborators: precompiled-header storage,
environment or PCH creator. -/
inductive CollaboratorCall where
  | fetchSystemPrecompiledHeaderPath (projectPartId : Int)
  | preIncludeSearchPath
  | generatePch (pchTask : PchTask)
  | projectPartPch
  | insertProjectPrecompiledHeader (projectPartId : Int) (pchPath : String) (lastModified : Int)
  | deleteProjectPrecompiledHeader (projectPartId : Int)
  | insertSystemPrecompiledHeaders (projectPartIds : ProjectPartIds) (pchPath : String)
      (lastModified : Int)
  | deleteSystemPrecompiledHeaders (projectPartIds : ProjectPartIds)
  deriving DecidableEq, Repr

/-- The collaborators of a closure, over any state `ω` of storage, environment and creator
together: each member function either returns (a value and the next state) or fails with an
`ε` (an exception that leaves the call). -/
structure Collaborators (ε ω : Type) where
  fetchSystemPrecompiledHeaderPath : Int → ω → Except ε (String × ω)
  preIncludeSearchPath : ω → Except ε (String × ω)
  generatePch : PchTask → ω → Except ε (Unit × ω)
  projectPartPch : ω → Except ε (ProjectPartPch × ω)
  insertProjectPrecompiledHeader : Int → String → Int → ω → Except ε (Unit × ω)
  deleteProjectPrecompiledHeader : Int → ω → Except ε (Unit × ω)
  insertSystemPrecompiledHeaders : ProjectPartIds → String → Int → ω → Except ε (Unit × ω)
  deleteSystemPrecompiledHeaders : ProjectPartIds → ω → Except ε (Unit × ω)

/-- What running a piece of a closure gives: the collaborator calls it made, oldest first, and
either the failure that left it or its value with the next state. -/
structure Outcome (ε ω α : Type) where
  calls : List CollaboratorCall
  result : Except ε (α × ω)

/-- A piece of a closure body: from the collaborators' state to an outcome. -/
def Exec (ε ω α : Type) : Type := ω → Outcome ε ω α

/-- Returning a value makes no call. -/
def Exec.pure {ε ω α : Type} (a : α) : Exec ε ω α := fun w => ⟨[], Except.ok (a, w)⟩

/-- Sequencing of statements: a failure of the first leaves at once, with the calls made so
far; otherwise the second runs in the state the first left. -/
def Exec.bind {ε ω α β : Type} (m : Exec ε ω α) (f : α → Exec ε ω β) : Exec ε ω β := fun w =>
  match (m w).result with
  | Except.error e => ⟨(m w).calls, Except.error e⟩
  | Except.ok (a, w1) => ⟨(m w).calls ++ (f a w1).calls, (f a w1).result⟩

instance {ε ω : Type} : Monad (Exec ε ω) where
  pure := Exec.pure
  bind := Exec.bind

/-- One call on a collaborator: it is recorded, and its result is the result of the step. -/
def Exec.call {ε ω α : Type} (c : CollaboratorCall) (op : ω → Except ε (α × ω)) : Exec ε ω α :=
  fun w => ⟨[c], op w⟩

/-- The body of the closure `convert` returns, in `createProjectTasks` for `Task.project` and
in `createSystemTasks` for `Task.system`, run on the creator handed to it. -/
def Task.invoke {ε ω : Type} (C : Collaborators ε ω) : Task → Exec ε ω Unit
  | Task.project pchTask => do
    let projectPartId := pchTask.projectPartId
    if pchTask.includes.length ≠ 0 then
      let systemPchPath ←
        Exec.call (CollaboratorCall.fetchSystemPrecompiledHeaderPath projectPartId)
          (C.fetchSystemPrecompiledHeaderPath projectPartId)
      let pchTask := { pchTask with systemPchPath := systemPchPath }
      let preIncludeSearchPath ←
        Exec.call CollaboratorCall.preIncludeSearchPath C.preIncludeSearchPath
      let pchTask := { pchTask with preIncludeSearchPath := preIncludeSearchPath }
      Exec.call (CollaboratorCall.generatePch pchTask) (C.generatePch pchTask)
      let projectPartPch ← Exec.call CollaboratorCall.projectPartPch C.projectPartPch
      if projectPartPch.pchPath = "" then
        Exec.call (CollaboratorCall.deleteProjectPrecompiledHeader projectPartId)
          (C.deleteProjectPrecompiledHeader projectPartId)
      else
        Exec.call
          (CollaboratorCall.insertProjectPrecompiledHeader projectPartId projectPartPch.pchPath
            projectPartPch.lastModified)
          (C.insertProjectPrecompiledHeader projectPartId projectPartPch.pchPath
            projectPartPch.lastModified)
    else
      Exec.call (CollaboratorCall.deleteProjectPrecompiledHeader projectPartId)
        (C.deleteProjectPrecompiledHeader projectPartId)
  | Task.system pchTask => do
    let projectPartIds := pchTask.projectPartIds
    if pchTask.includes.length ≠ 0 then
      let preIncludeSearchPath ←
        Exec.call CollaboratorCall.preIncludeSearchPath C.preIncludeSearchPath
      let pchTask := { pchTask with preIncludeSearchPath := preIncludeSearchPath }
      Exec.call (CollaboratorCall.generatePch pchTask) (C.generatePch pchTask)
      let projectPartPch ← Exec.call CollaboratorCall.projectPartPch C.projectPartPch
      if projectPartPch.pchPath = "" then
        Exec.call (CollaboratorCall.deleteSystemPrecompiledHeaders projectPartIds)
          (C.deleteSystemPrecompiledHeaders projectPartIds)
      else
        Exec.call
          (CollaboratorCall.insertSystemPrecompiledHeaders projectPartIds projectPartPch.pchPath
            projectPartPch.lastModified)
          (C.insertSystemPrecompiledHeaders projectPartIds projectPartPch.pchPath
            projectPartPch.lastModified)
    else
      Exec.call (CollaboratorCall.deleteSystemPrecompiledHeaders projectPartIds)
        (C.deleteSystemPrecompiledHeaders projectPartIds)

/-- A step of the queue's life: one of its public operations, or one in-flight closure of a
scheduler finishing. -/
inductive Action where
  | addSystemPchTasks (pchTasks : PchTasks)
  | addProjectPchTasks (pchTasks : PchTasks)
  | removePchTasks (projectsPartIds : ProjectPartIds)
  | processEntries
  | systemTaskFinished
  | projectTaskFinished
  deriving DecidableEq, Repr

/-- One step. `finish` is what the completion of one closure does to a scheduler (`none` when
it has nothing in flight). -/
def step {σ : Type} (I : TaskSchedulerInterface σ) (finish : σ → Option σ) :
    Action → PchTaskQueue σ → Option (PchTaskQueue σ)
  | Action.addSystemPchTasks pchTasks, q => some (addSystemPchTasks pchTasks q)
  | Action.addProjectPchTasks pchTasks, q => some (addProjectPchTasks pchTasks q)
  | Action.removePchTasks projectsPartIds, q => some (removePchTasks projectsPartIds q)
  | Action.processEntries, q => processEntries I q
  | Action.systemTaskFinished, q =>
    (finish q.m_systemPchTaskScheduler).map (fun s => { q with m_systemPchTaskScheduler := s })
  | Action.projectTaskFinished, q =>
    (finish q.m_projectPchTaskScheduler).map (fun s => { q with m_projectPchTaskScheduler := s })

/-- A sequence of steps, first to last. -/
def run {σ : Type} (I : TaskSchedulerInterface σ) (finish : σ → Option σ) :
    List Action → PchTaskQueue σ → Option (PchTaskQueue σ)
  | [], q => some q
  | a :: as, q => (step I finish a q).bind (run I finish as)

/-- Completion of one closure on `countingScheduler`: `used` falls by one and the slot is
free again. -/
def finishOne (s : SlotUsage) : Option SlotUsage :=
  if 0 < s.used then some { free := s.free + 1, used := s.used - 1 } else none

/-- Every task of the list has exactly one id in `projectPartIds`. -/
def SingleId (ts : PchTasks) : Prop := ∀ t ∈ ts, t.projectPartIds.length = 1

/-- Every task of the list has a non-empty `projectPartIds`. -/
def NonEmptyIds (ts : PchTasks) : Prop := ∀ t ∈ ts, t.projectPartIds ≠ []

instance (ts : PchTasks) : Decidable (StrictAsc ts) := by unfold StrictAsc; infer_instance

instance (ts : PchTasks) : Decidable (StrictAscById ts) := by
  unfold StrictAscById; infer_instance

/-- Collaborators like `fixedCollaborators` in which the storage fetch, the environment query
or the creator's `generatePch` fails (with its own name as the failure) when its flag is
set. -/
def failingCollaborators (failFetch failPreInclude failGenerate : Bool) :
    Collaborators String ProjectPartPch where
  fetchSystemPrecompiledHeaderPath := fun _ w =>
    if failFetch then Except.error "fetchSystemPrecompiledHeaderPath"
    else Except.ok ("system.pch", w)
  preIncludeSearchPath := fun w =>
    if failPreInclude then Except.error "preIncludeSearchPath" else Except.ok ("/pre", w)
  generatePch := fun _ w =>
    if failGenerate then Except.error "generatePch" else Except.ok ((), w)
  projectPartPch := fun w => Except.ok (w, w)
  insertProjectPrecompiledHeader := fun _ _ _ w => Except.ok ((), w)
  deleteProjectPrecompiledHeader := fun _ w => Except.ok ((), w)
  insertSystemPrecompiledHeaders := fun _ _ _ w => Except.ok ((), w)
  deleteSystemPrecompiledHeaders := fun _ w => Except.ok ((), w)

end ClangBackEnd

/-! # States editor view (`stateseditorview.cpp`)

The re-entrancy flag `m_block` of `QmlDesigner::StatesEditorView` and the name search of
`addState`. Everything the view reaches besides `m_block` (model, widget, annotation editor) is
an abstract state `μ`; the member functions of other classes the operations call are taken as
parameters and may fail with a C++ exception. -/

namespace QmlDesigner

/-- What leaves a call as a C++ exception: a `RewritingException`, another designer
`Exception` (the base class of `RewritingException`), or anything else. -/
inductive Thrown where
  | rewritingException
  | exception
  | other
  deriving DecidableEq, Repr

/-- The handler `catch (const Exception &e)` takes every designer exception. -/
def Thrown.isException : Thrown → Bool
  | Thrown.other => false
  | _ => true

/-- The handler `catch (const RewritingException &e)` takes rewriting exceptions only. -/
def Thrown.isRewritingException : Thrown → Bool
  | Thrown.rewritingException => true
  | _ => false

/-- The members of `StatesEditorView`: the flag, and everything else. -/
structure StatesEditorView (μ : Type) where
  m_block : Bool
  rest : μ

/-- A statement sequence on a state `σ`: it returns a value or is left by an exception, and
either way leaves a state behind. -/
def Op (σ α : Type) : Type := σ → Except Thrown α × σ

/-- Returning a value changes nothing. -/
def Op.pure {σ α : Type} (a : α) : Op σ α := fun s => (Except.ok a, s)

/-- Sequencing: an exception of the first part skips the second. -/
def Op.bind {σ α β : Type} (m : Op σ α) (f : α → Op σ β) : Op σ β := fun s =>
  match m s with
  | (Except.error e, s1) => (Except.error e, s1)
  | (Except.ok a, s1) => f a s1

instance {σ : Type} : Monad (Op σ) where
  pure := Op.pure
  bind := Op.bind

/-- The statement `try { body } catch (const T &e) { handler }`, where `catches` tells which
exceptions are a `T`. -/
def tryCatch {σ : Type} (catches : Thrown → Bool) (body : Op σ Unit)
    (handler : Thrown → Op σ Unit) : Op σ Unit := fun s =>
  match body s with
  | (Except.error e, s1) => if catches e then handler e s1 else (Except.error e, s1)
  | (Except.ok a, s1) => (Except.ok a, s1)

/-- A range-based `for` over a list. -/
def forEach {σ α : Type} (body : α → Op σ Unit) : List α → Op σ Unit
  | [] => Op.pure ()
  | x :: xs => Op.bind (body x) (fun _ => forEach body xs)

/-- A `VariantProperty` as the three facts `variantPropertiesChanged` reads from it. -/
structure VariantProperty where
  name : String
  parentIsValidQmlModelState : Bool
  parentIsRootNode : Bool
  deriving DecidableEq, Repr

/-- The functions of other classes that the guarded operations call, acting on the whole view
(a call may come back into the view), and the outcome of the expression `new int` that builds
the scope guard: the allocation returns, or it fails with an exception (`std::bad_alloc`) and
touches nothing. The node, state and property objects are named by the internal node id they
are built from. -/
structure ModelOps (μ : Type) where
  newInt : Except Thrown Unit
  hasModelNodeForInternalId : Int → Op (StatesEditorView μ) Bool
  stateIsValid : Int → Op (StatesEditorView μ) Bool
  setWhenExpression : Int → String → Op (StatesEditorView μ) Unit
  hasWhenProperty : Int → Op (StatesEditorView μ) Bool
  removeWhenProperty : Int → Op (StatesEditorView μ) Unit
  setAsDefault : Int → Op (StatesEditorView μ) Unit
  rootHasStateProperty : Op (StatesEditorView μ) Bool
  removeRootStateProperty : Op (StatesEditorView μ) Unit
  modelNodeIsValid : Int → Op (StatesEditorView μ) Bool
  showAnnotationEditor : Int → Op (StatesEditorView μ) Unit
  removeAnnotation : Int → Op (StatesEditorView μ) Unit
  showException : Thrown → Op (StatesEditorView μ) Unit
  resetModel : Op (StatesEditorView μ) Unit

/-- The frame the guarded operations share: `if (m_block) return;`, then `m_block = true;`,
then `std::unique_ptr<int, decltype(guard)> scopeGuard(new int, guard);`. The allocation
`new int` is evaluated after the flag is set and before the guard exists: when it fails, its
exception leaves the function with the flag still set. Once the guard exists, its deleter runs
`m_block = false` when the function is left, by a return or by an exception passing through. -/
def withBlock {μ : Type} (newInt : Except Thrown Unit) (body : Op (StatesEditorView μ) Unit) :
    Op (StatesEditorView μ) Unit :=
  fun v =>
    if v.m_block then (Except.ok (), v)
    else
      match newInt with
      | Except.error e => (Except.error e, { v with m_block := true })
      | Except.ok _ =>
        match body { v with m_block := true } with
        | (r, v1) => (r, { v1 with m_block := false })

/-- The function `StatesEditorView::setWhenCondition`. -/
def setWhenCondition {μ : Type} (ops : ModelOps μ) (internalNodeId : Int) (condition : String) :
    Op (StatesEditorView μ) Unit :=
  withBlock ops.newInt do
    if ← ops.hasModelNodeForInternalId internalNodeId then
      tryCatch Thrown.isException
        (do
          if ← ops.stateIsValid internalNodeId then
            ops.setWhenExpression internalNodeId condition)
        ops.showException

/-- The function `StatesEditorView::resetWhenCondition`. -/
def resetWhenCondition {μ : Type} (ops : ModelOps μ) (internalNodeId : Int) :
    Op (StatesEditorView μ) Unit :=
  withBlock ops.newInt do
    if ← ops.hasModelNodeForInternalId internalNodeId then
      tryCatch Thrown.isRewritingException
        (do
          if ← ops.stateIsValid internalNodeId then
            if ← ops.hasWhenProperty internalNodeId then
              ops.removeWhenProperty internalNodeId)
        ops.showException

/-- The function `StatesEditorView::setStateAsDefault`. -/
def setStateAsDefault {μ : Type} (ops : ModelOps μ) (internalNodeId : Int) :
    Op (StatesEditorView μ) Unit :=
  withBlock ops.newInt do
    if ← ops.hasModelNodeForInternalId internalNodeId then
      tryCatch Thrown.isRewritingException
        (do
          if ← ops.stateIsValid internalNodeId then
            ops.setAsDefault internalNodeId)
        ops.showException

/-- The function `StatesEditorView::resetDefaultState`. -/
def resetDefaultState {μ : Type} (ops : ModelOps μ) : Op (StatesEditorView μ) Unit :=
  withBlock ops.newInt
    (tryCatch Thrown.isRewritingException
      (do
        if ← ops.rootHasStateProperty then
          ops.removeRootStateProperty)
      ops.showException)

/-- The function `StatesEditorView::setAnnotation`; creating the editor when there is none,
handing it the node and showing it is the one step `showAnnotationEditor`. -/
def setAnnotation {μ : Type} (ops : ModelOps μ) (internalNodeId : Int) :
    Op (StatesEditorView μ) Unit :=
  withBlock ops.newInt do
    if ← ops.hasModelNodeForInternalId internalNodeId then
      tryCatch Thrown.isRewritingException
        (do
          if ← ops.stateIsValid internalNodeId then
            if ← ops.modelNodeIsValid internalNodeId then
              ops.showAnnotationEditor internalNodeId)
        ops.showException

/-- The function `StatesEditorView::removeAnnotation`. -/
def removeAnnotation {μ : Type} (ops : ModelOps μ) (internalNodeId : Int) :
    Op (StatesEditorView μ) Unit :=
  withBlock ops.newInt do
    if ← ops.hasModelNodeForInternalId internalNodeId then
      tryCatch Thrown.isRewritingException
        (do
          if ← ops.stateIsValid internalNodeId then
            ModelOps.removeAnnotation ops internalNodeId)
        ops.showException

/-- The function `StatesEditorView::variantPropertiesChanged`. -/
def variantPropertiesChanged {μ : Type} (ops : ModelOps μ) (propertyList : List VariantProperty) :
    Op (StatesEditorView μ) Unit :=
  withBlock ops.newInt
    (forEach
      (fun property =>
        if property.name = "name" ∧ property.parentIsValidQmlModelState = true then
          ops.resetModel
        else if property.name = "state" ∧ property.parentIsRootNode = true then
          ops.resetModel
        else Op.pure ())
      propertyList)

/-- Operations on a view whose "everything else" is a counter of model changes: the guard's
allocation succeeds, every node exists and is valid, `setWhenExpression` fails with an exception
that is not a designer `Exception` after changing the model, and the other changes succeed. -/
def throwingOps : ModelOps Nat where
  newInt := Except.ok ()
  hasModelNodeForInternalId := fun _ => Op.pure true
  stateIsValid := fun _ => Op.pure true
  setWhenExpression := fun _ _ v => (Except.error Thrown.other, { v with rest := v.rest + 1 })
  hasWhenProperty := fun _ => Op.pure true
  removeWhenProperty := fun _ v => (Except.ok (), { v with rest := v.rest + 1 })
  setAsDefault := fun _ v => (Except.ok (), { v with rest := v.rest + 1 })
  rootHasStateProperty := Op.pure true
  removeRootStateProperty := fun v => (Except.ok (), { v with rest := v.rest + 1 })
  modelNodeIsValid := fun _ => Op.pure true
  showAnnotationEditor := fun _ v => (Except.ok (), { v with rest := v.rest + 1 })
  removeAnnotation := fun _ v => (Except.ok (), { v with rest := v.rest + 1 })
  showException := fun _ v => (Except.ok (), v)
  resetModel := fun v => (Except.ok (), { v with rest := v.rest + 1 })

/-- The operations of `throwingOps` at a moment when the allocation `new int` fails: the
expression throws `std::bad_alloc`, which is not a designer `Exception`. -/
def failedAllocationOps : ModelOps Nat := { throwingOps with newInt := Except.error Thrown.other }

/-- The name `QString("State%1").arg(index)`: `State` followed by the decimal digits. -/
def stateName (index : Nat) : String := "State" ++ toString index

/-- How the name search of `addState` ends. -/
inductive NameSearch where
  | found (newStateName : String)
  | overflow
  | outOfFuel
  deriving DecidableEq, Repr

/-- The loop `while (true)` of `addState`, started with `index` and allowed `fuel` rounds. A
round builds the name for `index`, increments `index` and stops when the name is not in the
list. `index` is an `int`: the increment at `2147483647` has no defined result. -/
def nameSearchLoop (modelStateNames : List String) : Nat → Nat → NameSearch
  | 0, _ => NameSearch.outOfFuel
  | fuel + 1, index =>
    if 2147483647 ≤ index then NameSearch.overflow
    else if modelStateNames.contains (stateName index) then
      nameSearchLoop modelStateNames fuel (index + 1)
    else NameSearch.found (stateName index)

/-- The name search of `StatesEditorView::addState`: the loop from `index = 1`. One round
more than there are names is all it can need. -/
def newStateName (modelStateNames : List String) : NameSearch :=
  nameSearchLoop modelStateNames (modelStateNames.length + 1) 1

/-- The names `State1`, ..., `State<n>`, in this order. -/
def firstStateNames (n : Nat) : List String :=
  (List.range n).map (fun (i : Nat) => stateName (i + 1))

end QmlDesigner

namespace ClangBackEnd

/-! ## The vector order is a strict total order -/

theorem lexicographical_compare_irrefl (a : List Int) :
    lexicographical_compare a a = false := by
  induction a with
  | nil => rfl
  | cons x xs ih => simp [lexicographical_compare, ih]

theorem lexicographical_compare_trans :
    ∀ a b c : List Int, lexicographical_compare a b = true →
      lexicographical_compare b c = true → lexicographical_compare a c = true
  | [], [], _ => by simp [lexicographical_compare]
  | [], _ :: _, [] => by simp [lexicographical_compare]
  | [], _ :: _, _ :: _ => by simp [lexicographical_compare]
  | _ :: _, [], _ => by simp [lexicographical_compare]
  | _ :: _, _ :: _, [] => by simp [lexicographical_compare]
  | x :: xs, y :: ys, z :: zs => by
    have ih := lexicographical_compare_trans xs ys zs
    simp only [lexicographical_compare]
    intro h1 h2
    split_ifs at h1 h2 ⊢ <;> first | rfl | omega | exact ih h1 h2

theorem lexicographical_compare_asymm :
    ∀ a b : List Int, lexicographical_compare a b = true →
      lexicographical_compare b a = false
  | [], [] => by simp [lexicographical_compare]
  | [], _ :: _ => by simp [lexicographical_compare]
  | _ :: _, [] => by simp [lexicographical_compare]
  | x :: xs, y :: ys => by
    have ih := lexicographical_compare_asymm xs ys
    simp only [lexicographical_compare]
    intro h1
    split_ifs at h1 ⊢ <;> first | rfl | omega | exact ih h1

theorem lexicographical_compare_total :
    ∀ a b : List Int, lexicographical_compare a b = false →
      lexicographical_compare b a = false → a = b
  | [], [] => by simp
  | [], _ :: _ => by simp [lexicographical_compare]
  | _ :: _, [] => by simp [lexicographical_compare]
  | x :: xs, y :: ys => by
    have ih := lexicographical_compare_total xs ys
    simp only [lexicographical_compare]
    intro h1 h2
    split_ifs at h1 h2
    have hxy : x = y := by omega
    rw [hxy, ih h1 h2]

theorem compare_trans {a b c : PchTask} (h1 : compare a b = true) (h2 : compare b c = true) :
    compare a c = true :=
  lexicographical_compare_trans _ _ _ h1 h2

theorem compare_asymm {a b : PchTask} (h : compare a b = true) : compare b a = false :=
  lexicographical_compare_asymm _ _ h

theorem compare_ne {a b : PchTask} (h : compare a b = true) :
    a.projectPartIds ≠ b.projectPartIds := by
  intro e
  unfold compare at h
  rw [e, lexicographical_compare_irrefl] at h
  exact Bool.false_ne_true h

theorem compare_ne_symm {a b : PchTask} (h : compare a b = true) :
    b.projectPartIds ≠ a.projectPartIds := fun e => compare_ne h e.symm

theorem compare_key_eq {a b : PchTask} (h1 : compare a b = false) (h2 : compare b a = false) :
    a.projectPartIds = b.projectPartIds :=
  lexicographical_compare_total _ _ h1 h2

theorem compare_congr_left {a b c : PchTask} (e : a.projectPartIds = b.projectPartIds) :
    compare a c = compare b c := by
  unfold compare; rw [e]

/-! ## The merge -/

theorem strictAsc_cons {x : PchTask} {xs : PchTasks} :
    StrictAsc (x :: xs) ↔ (∀ t ∈ xs, compare x t = true) ∧ StrictAsc xs := by
  unfold StrictAsc; exact List.pairwise_cons

theorem set_union_nil_right (c : PchTask → PchTask → Bool) (xs : PchTasks) :
    set_union c xs [] = xs := by
  cases xs <;> simp [set_union]

theorem set_union_subset (c : PchTask → PchTask → Bool) (xs ys : PchTasks) :
    ∀ t ∈ set_union c xs ys, t ∈ xs ∨ t ∈ ys := by
  induction xs, ys using set_union.induct c with
  | case1 ys => intro t h; simp [set_union] at h; exact Or.inr h
  | case2 x xs => intro t h; simp [set_union] at h; exact Or.inl (by simpa using h)
  | case3 x xs y ys h1 ih =>
    intro t h
    rw [set_union, if_pos h1] at h
    rcases List.mem_cons.1 h with e | h
    · exact Or.inr (e ▸ List.mem_cons_self _ _)
    · rcases ih t h with h | h
      · exact Or.inl h
      · exact Or.inr (List.mem_cons_of_mem _ h)
  | case4 x xs y ys h1 h2 ih =>
    intro t h
    rw [set_union, if_neg h1, if_pos h2] at h
    rcases List.mem_cons.1 h with e | h
    · exact Or.inl (e ▸ List.mem_cons_self _ _)
    · rcases ih t h with h | h
      · exact Or.inl (List.mem_cons_of_mem _ h)
      · exact Or.inr h
  | case5 x xs y ys h1 h2 ih =>
    intro t h
    rw [set_union, if_neg h1, if_neg h2] at h
    rcases List.mem_cons.1 h with e | h
    · exact Or.inl (e ▸ List.mem_cons_self _ _)
    · rcases ih t h with h | h
      · exact Or.inl (List.mem_cons_of_mem _ h)
      · exact Or.inr (List.mem_cons_of_mem _ h)

/-- In a strictly ascending list the head orders before every later element, so it orders
before everything that follows a larger element as well. -/
theorem compare_of_lt_head {y x : PchTask} {xs : PchTasks} (h : compare y x = true)
    (hx : StrictAsc (x :: xs)) : ∀ t ∈ x :: xs, compare y t = true := by
  intro t ht
  rcases List.mem_cons.1 ht with e | ht
  · exact e ▸ h
  · exact compare_trans h ((strictAsc_cons.1 hx).1 t ht)

theorem set_union_strictAsc (xs ys : PchTasks) (hx : StrictAsc xs) (hy : StrictAsc ys) :
    StrictAsc (set_union compare xs ys) := by
  induction xs, ys using set_union.induct compare with
  | case1 ys => simpa [set_union] using hy
  | case2 x xs => simpa [set_union] using hx
  | case3 x xs y ys h1 ih =>
    rw [set_union, if_pos h1]
    refine strictAsc_cons.2 ⟨?_, ih hx (strictAsc_cons.1 hy).2⟩
    intro t ht
    rcases set_union_subset _ _ _ t ht with h | h
    · exact compare_of_lt_head h1 hx t h
    · exact (strictAsc_cons.1 hy).1 t h
  | case4 x xs y ys h1 h2 ih =>
    rw [set_union, if_neg h1, if_pos h2]
    refine strictAsc_cons.2 ⟨?_, ih (strictAsc_cons.1 hx).2 hy⟩
    intro t ht
    rcases set_union_subset _ _ _ t ht with h | h
    · exact (strictAsc_cons.1 hx).1 t h
    · exact compare_of_lt_head h2 hy t h
  | case5 x xs y ys h1 h2 ih =>
    rw [set_union, if_neg h1, if_neg h2]
    refine strictAsc_cons.2 ⟨?_, ih (strictAsc_cons.1 hx).2 (strictAsc_cons.1 hy).2⟩
    intro t ht
    rcases set_union_subset _ _ _ t ht with h | h
    · exact (strictAsc_cons.1 hx).1 t h
    · have e : x.projectPartIds = y.projectPartIds :=
        compare_key_eq (by simpa using h2) (by simpa using h1)
      rw [compare_congr_left e]
      exact (strictAsc_cons.1 hy).1 t h


theorem mem_keys {k : ProjectPartIds} {ts : PchTasks} :
    k ∈ keys ts ↔ ∃ t ∈ ts, t.projectPartIds = k := by
  unfold keys; exact List.mem_map

theorem key_ne_of_lt_head {y x : PchTask} {xs : PchTasks} (h : compare y x = true)
    (hx : StrictAsc (x :: xs)) : ∀ t ∈ x :: xs, t.projectPartIds ≠ y.projectPartIds :=
  fun t ht => compare_ne_symm (compare_of_lt_head h hx t ht)

theorem mem_set_union (xs ys : PchTasks) (hx : StrictAsc xs) (hy : StrictAsc ys) (t : PchTask) :
    t ∈ set_union compare xs ys ↔ t ∈ xs ∨ (t ∈ ys ∧ t.projectPartIds ∉ keys xs) := by
  induction xs, ys using set_union.induct compare with
  | case1 ys => simp [set_union, keys]
  | case2 x xs => simp [set_union]
  | case3 x xs y ys h1 ih =>
    rw [set_union, if_pos h1, List.mem_cons, ih hx (strictAsc_cons.1 hy).2, List.mem_cons (b := y)]
    have F : t = y → t.projectPartIds ∉ keys (x :: xs) := by
      rintro rfl hk
      obtain ⟨s, hs, e⟩ := mem_keys.1 hk
      exact key_ne_of_lt_head h1 hx s hs e
    tauto
  | case4 x xs y ys h1 h2 ih =>
    rw [set_union, if_neg h1, if_pos h2, List.mem_cons, ih (strictAsc_cons.1 hx).2 hy,
      List.mem_cons (b := x)]
    have F : t ∈ y :: ys → t.projectPartIds ≠ x.projectPartIds :=
      fun ht => key_ne_of_lt_head h2 hy t ht
    have K : t.projectPartIds ∈ keys (x :: xs) ↔
        t.projectPartIds = x.projectPartIds ∨ t.projectPartIds ∈ keys xs := by
      simp [keys]
    tauto
  | case5 x xs y ys h1 h2 ih =>
    rw [set_union, if_neg h1, if_neg h2, List.mem_cons,
      ih (strictAsc_cons.1 hx).2 (strictAsc_cons.1 hy).2, List.mem_cons (b := x),
      List.mem_cons (b := y)]
    have e : x.projectPartIds = y.projectPartIds :=
      compare_key_eq (by simpa using h2) (by simpa using h1)
    have F1 : t = y → t.projectPartIds = x.projectPartIds := by rintro rfl; exact e.symm
    have F2 : t ∈ ys → t.projectPartIds ≠ x.projectPartIds := by
      intro ht
      rw [e]
      exact compare_ne_symm ((strictAsc_cons.1 hy).1 t ht)
    have K : t.projectPartIds ∈ keys (x :: xs) ↔
        t.projectPartIds = x.projectPartIds ∨ t.projectPartIds ∈ keys xs := by
      simp [keys]
    constructor
    · rintro (h | h | ⟨h, hk⟩)
      · exact Or.inl (Or.inl h)
      · exact Or.inl (Or.inr h)
      · exact Or.inr ⟨Or.inr h, fun hk' => (K.1 hk').elim (F2 h) hk⟩
    · rintro ((h | h) | ⟨h | h, hk⟩)
      · exact Or.inl h
      · exact Or.inr (Or.inl h)
      · exact absurd (K.2 (Or.inl (F1 h))) hk
      · exact Or.inr (Or.inr ⟨h, fun hk' => hk (K.2 (Or.inr hk'))⟩)

theorem newKeyCount_cons (x : PchTask) (xs b : PchTasks) :
    newKeyCount (x :: xs) b =
      (if x.projectPartIds ∈ keys b then 0 else 1) + newKeyCount xs b := by
  unfold newKeyCount
  by_cases h : x.projectPartIds ∈ keys b
  · simp [List.filter_cons, h]
  · simp [List.filter_cons, h, Nat.add_comm]

theorem newKeyCount_skip (xs : PchTasks) (y : PchTask) (ys : PchTasks)
    (h : ∀ t ∈ xs, t.projectPartIds ≠ y.projectPartIds) :
    newKeyCount xs (y :: ys) = newKeyCount xs ys := by
  have e : xs.filter (fun t => decide (t.projectPartIds ∉ keys (y :: ys))) =
      xs.filter (fun t => decide (t.projectPartIds ∉ keys ys)) := by
    apply List.filter_congr
    intro t ht
    have := h t ht
    simp [keys, this]
  unfold newKeyCount
  rw [e]

theorem length_set_union (xs ys : PchTasks) (hx : StrictAsc xs) (hy : StrictAsc ys) :
    (set_union compare xs ys).length = ys.length + newKeyCount xs ys := by
  induction xs, ys using set_union.induct compare with
  | case1 ys => simp [set_union, newKeyCount]
  | case2 x xs => simp [set_union, newKeyCount, keys]
  | case3 x xs y ys h1 ih =>
    rw [set_union, if_pos h1, List.length_cons, ih hx (strictAsc_cons.1 hy).2,
      newKeyCount_skip (x :: xs) y ys (key_ne_of_lt_head h1 hx), List.length_cons]
    omega
  | case4 x xs y ys h1 h2 ih =>
    have hk : x.projectPartIds ∉ keys (y :: ys) := by
      intro hk
      obtain ⟨s, hs, e⟩ := mem_keys.1 hk
      exact key_ne_of_lt_head h2 hy s hs e
    rw [set_union, if_neg h1, if_pos h2, List.length_cons, ih (strictAsc_cons.1 hx).2 hy,
      newKeyCount_cons, if_neg hk]
    omega
  | case5 x xs y ys h1 h2 ih =>
    have e : x.projectPartIds = y.projectPartIds :=
      compare_key_eq (by simpa using h2) (by simpa using h1)
    have hk : x.projectPartIds ∈ keys (y :: ys) := by simp [keys, e]
    have hs : ∀ t ∈ xs, t.projectPartIds ≠ y.projectPartIds := by
      intro t ht
      rw [← e]
      exact compare_ne_symm ((strictAsc_cons.1 hx).1 t ht)
    rw [set_union, if_neg h1, if_neg h2, List.length_cons,
      ih (strictAsc_cons.1 hx).2 (strictAsc_cons.1 hy).2, newKeyCount_cons, if_pos hk,
      newKeyCount_skip xs y ys hs, List.length_cons]
    omega


/-! ## Progress accounting of the merge -/

theorem intCast_of_lt {n : Nat} (h : n < 2 ^ 31) : intCast n = (n : Int) := by
  unfold intCast
  have h1 : n % 2 ^ 32 = n := Nat.mod_eq_of_lt (by omega)
  rw [h1, if_pos h]

theorem sizeSub_add_left (b n : Nat) : sizeSub (b + n) b % 2 ^ 32 = n % 2 ^ 32 := by
  unfold sizeSub
  omega

theorem intCast_congr {a b : Nat} (h : a % 2 ^ 32 = b % 2 ^ 32) : intCast a = intCast b := by
  unfold intCast; rw [h]

theorem intCast_sizeSub (b n : Nat) : intCast (sizeSub (b + n) b) = intCast n :=
  intCast_congr (sizeSub_add_left b n)

/-- In a strictly ascending collection a key selects its task: filtering by the key of a member
leaves that member alone. -/
theorem filter_key_of_mem (ts : PchTasks) (h : StrictAsc ts) (a : PchTask) (ha : a ∈ ts) :
    ts.filter (fun t => decide (t.projectPartIds = a.projectPartIds)) = [a] := by
  induction ts with
  | nil => cases ha
  | cons x xs ih =>
    obtain ⟨hx, hxs⟩ := strictAsc_cons.1 h
    rcases List.mem_cons.1 ha with e | ha
    · subst e
      have : xs.filter (fun t => decide (t.projectPartIds = a.projectPartIds)) = [] := by
        rw [List.filter_eq_nil_iff]
        intro t ht
        simpa using compare_ne_symm (hx t ht)
      simp [List.filter_cons, this]
    · have hne : x.projectPartIds ≠ a.projectPartIds := compare_ne (hx a ha)
      simp [List.filter_cons, hne, ih hxs ha]

theorem addPchTasks_fst (n d : PchTasks) (pc : ProgressCounter) :
    (addPchTasks n d pc).1 = set_union compare n d := rfl

/-- C1: for `new` and `destination` both strictly ascending by `projectPartIds`, the destination
after `addPchTasks` is strictly ascending by `projectPartIds` and its keys are exactly the keys
of `new` together with the keys of the old destination. -/
theorem addPchTasks_sorted_union (newPchTasks destination : PchTasks) (pc : ProgressCounter)
    (hn : StrictAsc newPchTasks) (hd : StrictAsc destination) :
    StrictAsc (addPchTasks newPchTasks destination pc).1 ∧
      ∀ k, k ∈ keys (addPchTasks newPchTasks destination pc).1 ↔
        k ∈ keys newPchTasks ∨ k ∈ keys destination := by
  rw [addPchTasks_fst]
  refine ⟨set_union_strictAsc _ _ hn hd, fun k => ?_⟩
  simp only [mem_keys, mem_set_union _ _ hn hd]
  constructor
  · rintro ⟨t, ht | ⟨ht, -⟩, e⟩
    · exact Or.inl ⟨t, ht, e⟩
    · exact Or.inr ⟨t, ht, e⟩
  · rintro (⟨t, ht, e⟩ | ⟨t, ht, e⟩)
    · exact ⟨t, Or.inl ht, e⟩
    · by_cases hk : k ∈ keys newPchTasks
      · obtain ⟨s, hs, e'⟩ := mem_keys.1 hk
        exact ⟨s, Or.inl hs, e'⟩
      · exact ⟨t, Or.inr ⟨ht, by rw [e]; exact fun h => hk (mem_keys.2 h)⟩, e⟩

theorem addPchTasks_sorted_union_witness :
    StrictAsc (addPchTasks [PchTask.mk "" [1, 2] [7] "" "", PchTask.mk "" [4] [] "" ""]
        [PchTask.mk "" [1] [8] "" "", PchTask.mk "" [1, 2] [8] "" ""] []).1 ∧
      ∀ k, k ∈ keys (addPchTasks [PchTask.mk "" [1, 2] [7] "" "", PchTask.mk "" [4] [] "" ""]
          [PchTask.mk "" [1] [8] "" "", PchTask.mk "" [1, 2] [8] "" ""] []).1 ↔
        k ∈ keys [PchTask.mk "" [1, 2] [7] "" "", PchTask.mk "" [4] [] "" ""] ∨
          k ∈ keys [PchTask.mk "" [1] [8] "" "", PchTask.mk "" [1, 2] [8] "" ""] :=
  addPchTasks_sorted_union [PchTask.mk "" [1, 2] [7] "" "", PchTask.mk "" [4] [] "" ""]
    [PchTask.mk "" [1] [8] "" "", PchTask.mk "" [1, 2] [8] "" ""] [] (by decide) (by decide)

/-- C2: for `new` and `destination` both strictly ascending, a task is in the merged destination
exactly when it is a task of `new`, or a task of the old destination whose key `new` does not
have; so a merged task whose key `new` has is the task of `new`, any other merged task is the old
destination's task itself, and for each task of `new` the merged destination holds exactly one
task with that key, namely that task. -/
theorem addPchTasks_new_wins (newPchTasks destination : PchTasks) (pc : ProgressCounter)
    (hn : StrictAsc newPchTasks) (hd : StrictAsc destination) :
    (∀ t, t ∈ (addPchTasks newPchTasks destination pc).1 ↔
        t ∈ newPchTasks ∨ (t ∈ destination ∧ t.projectPartIds ∉ keys newPchTasks)) ∧
      (∀ t ∈ (addPchTasks newPchTasks destination pc).1,
        (t.projectPartIds ∈ keys newPchTasks → t ∈ newPchTasks) ∧
        (t.projectPartIds ∉ keys newPchTasks → t ∈ destination)) ∧
      (∀ a ∈ newPchTasks,
        (addPchTasks newPchTasks destination pc).1.filter
          (fun t => decide (t.projectPartIds = a.projectPartIds)) = [a]) := by
  rw [addPchTasks_fst]
  have hm := mem_set_union newPchTasks destination hn hd
  refine ⟨hm, ?_, ?_⟩
  · intro t ht
    rcases (hm t).1 ht with h | ⟨h, hk⟩
    · exact ⟨fun _ => h, fun hk => absurd (mem_keys.2 ⟨t, h, rfl⟩) hk⟩
    · exact ⟨fun hk' => absurd hk' hk, fun _ => h⟩
  · intro a ha
    exact filter_key_of_mem _ (set_union_strictAsc _ _ hn hd) a ((hm a).2 (Or.inl ha))

theorem addPchTasks_new_wins_witness :
    (addPchTasks [PchTask.mk "" [1, 2] [7] "" "new"]
        [PchTask.mk "" [1, 2] [8] "" "old", PchTask.mk "" [3] [9] "" "kept"] []).1.filter
      (fun t => decide (t.projectPartIds = [1, 2])) = [PchTask.mk "" [1, 2] [7] "" "new"] :=
  (addPchTasks_new_wins [PchTask.mk "" [1, 2] [7] "" "new"]
    [PchTask.mk "" [1, 2] [8] "" "old", PchTask.mk "" [3] [9] "" "kept"] []
    (by decide) (by decide)).2.2 (PchTask.mk "" [1, 2] [7] "" "new") (List.mem_singleton.2 rfl)

/-- C3, amended: for `new` (A) and `destination` (B) both strictly ascending and fewer than
`2^31` keys of A that are not keys of B, `addPchTasks` makes exactly one progress call,
`addTotal`, whose argument is the number of keys of A that are not keys of B, and this number is
the size of the destination after the call minus its size before. -/
theorem addPchTasks_addTotal (newPchTasks destination : PchTasks) (pc : ProgressCounter)
    (hn : StrictAsc newPchTasks) (hd : StrictAsc destination)
    (hb : newKeyCount newPchTasks destination < 2 ^ 31) :
    (addPchTasks newPchTasks destination pc).2 =
        pc ++ [ProgressCall.addTotal (newKeyCount newPchTasks destination : Int)] ∧
      (newKeyCount newPchTasks destination : Int) =
        ((addPchTasks newPchTasks destination pc).1.length : Int) - (destination.length : Int) := by
  have hl := length_set_union newPchTasks destination hn hd
  constructor
  · unfold addPchTasks
    simp only [hl, intCast_sizeSub, intCast_of_lt hb]
  · rw [addPchTasks_fst, hl]; push_cast; ring

theorem strictAsc_ascendingTasks (n : Nat) : StrictAsc (ascendingTasks n) := by
  unfold StrictAsc ascendingTasks
  rw [List.pairwise_map]
  refine (List.pairwise_lt_range n).imp ?_
  intro a b h
  have : Int.ofNat a < Int.ofNat b := Int.ofNat_lt.2 h
  simp only [compare, lexicographical_compare, if_pos this]

theorem length_ascendingTasks (n : Nat) : (ascendingTasks n).length = n := by
  simp [ascendingTasks]

theorem newKeyCount_nil (ts : PchTasks) : newKeyCount ts [] = ts.length := by
  simp [newKeyCount, keys]

/-- C3, as stated, fails: merging the `2^31` tasks with keys `[0], ..., [2^31 - 1]` into an empty
destination (both strictly ascending) adds `2^31` new keys, but the size difference is
converted to `int` and `addTotal` receives `-2147483648`. -/
theorem addTotal_argument_wraps :
    StrictAsc (ascendingTasks 2147483648) ∧ StrictAsc [] ∧
      newKeyCount (ascendingTasks 2147483648) [] = 2147483648 ∧
      (addPchTasks (ascendingTasks 2147483648) [] []).2 =
        [ProgressCall.addTotal (-2147483648)] := by
  refine ⟨strictAsc_ascendingTasks _, List.Pairwise.nil, ?_, ?_⟩
  · rw [newKeyCount_nil, length_ascendingTasks]
  · unfold addPchTasks
    simp only [set_union_nil_right, length_ascendingTasks, List.length_nil, List.nil_append]
    decide

theorem addPchTasks_addTotal_witness :
    (addPchTasks [PchTask.mk "" [1, 2] [7] "" "new", PchTask.mk "" [3] [] "" ""]
        [PchTask.mk "" [1, 2] [8] "" "old"] []).2 = [] ++ [ProgressCall.addTotal ((1 : Nat) : Int)] := by
  have := addPchTasks_addTotal [PchTask.mk "" [1, 2] [7] "" "new", PchTask.mk "" [3] [] "" ""]
        [PchTask.mk "" [1, 2] [8] "" "old"] [] (by decide) (by decide) (by decide)
  exact this.1


/-! ## The removal -/

theorem strictAscById_cons {x : PchTask} {xs : PchTasks} :
    StrictAscById (x :: xs) ↔ (∀ t ∈ xs, x.projectPartId < t.projectPartId) ∧ StrictAscById xs := by
  unfold StrictAscById; exact List.pairwise_cons

theorem set_difference_nil_right (c₁ : PchTask → ProjectPartId → Bool)
    (c₂ : ProjectPartId → PchTask → Bool) (xs : PchTasks) :
    set_difference c₁ c₂ xs [] = xs := by
  cases xs <;> simp [set_difference]

/-- On ascending inputs the ordered difference is the filter by non-membership. -/
theorem set_difference_eq_filter (xs : PchTasks) (ids : List Int)
    (hx : StrictAscById xs) (hi : ids.Pairwise (fun a b => a < b)) :
    set_difference CompareDifference.taskId CompareDifference.idTask xs ids =
      xs.filter (fun t => decide (t.projectPartId ∉ ids)) := by
  induction xs, ids using
    set_difference.induct CompareDifference.taskId CompareDifference.idTask with
  | case1 ids => simp [set_difference]
  | case2 x xs => simp [set_difference]
  | case3 x xs y ys h1 ih =>
    have hlt : x.projectPartId < y := by simpa [CompareDifference.taskId] using h1
    have hk : x.projectPartId ∉ y :: ys := by
      intro hm
      rcases List.mem_cons.1 hm with e | hm
      · unfold ProjectPartId at *
        omega
      · have := (List.pairwise_cons.1 hi).1 _ hm
        unfold ProjectPartId at *
        omega
    rw [set_difference, if_pos h1, ih (strictAscById_cons.1 hx).2 hi, List.filter_cons,
      if_pos (by simpa using hk)]
  | case4 x xs y ys h1 h2 ih =>
    have hlt : y < x.projectPartId := by simpa [CompareDifference.idTask] using h2
    rw [set_difference, if_neg h1, if_pos h2, ih hx (List.pairwise_cons.1 hi).2]
    apply List.filter_congr
    intro t ht
    have hne : t.projectPartId ≠ y := by
      rcases List.mem_cons.1 ht with e | ht
      · rw [e]
        unfold ProjectPartId at *
        omega
      · have := (strictAscById_cons.1 hx).1 t ht
        unfold ProjectPartId at *
        omega
    simp [hne]
  | case5 x xs y ys h1 h2 ih =>
    have h1' : ¬ x.projectPartId < y := by simpa [CompareDifference.taskId] using h1
    have h2' : ¬ y < x.projectPartId := by simpa [CompareDifference.idTask] using h2
    have e : x.projectPartId = y := by
      unfold ProjectPartId at *
      omega
    have hk : ¬ (x.projectPartId ∉ y :: ys) := by simp [e]
    rw [set_difference, if_neg h1, if_neg h2, ih (strictAscById_cons.1 hx).2
      (List.pairwise_cons.1 hi).2, List.filter_cons, if_neg (by simpa using hk)]
    apply List.filter_congr
    intro t ht
    have hne : t.projectPartId ≠ y := by
      have := (strictAscById_cons.1 hx).1 t ht
      unfold ProjectPartId at *
      omega
    simp [hne]

theorem removePchTasksByProjectPartId_fst (ids : ProjectPartIds) (d : PchTasks)
    (pc : ProgressCounter) :
    (removePchTasksByProjectPartId ids d pc).1 =
      set_difference CompareDifference.taskId CompareDifference.idTask d ids := rfl

/-- C4: for a destination whose tasks all have a `projectPartId()` (a non-empty
`projectPartIds`) and which is strictly ascending by it, and a strictly ascending id list,
`removePchTasksByProjectPartId` leaves the old destination filtered to the tasks whose
`projectPartId()` is not in the list, in their original order and unchanged. -/
theorem removePchTasksByProjectPartId_filter (projectsPartIds : ProjectPartIds)
    (destination : PchTasks) (pc : ProgressCounter) (hne : NonEmptyIds destination)
    (hd : StrictAscById destination) (hi : projectsPartIds.Pairwise (fun a b => a < b)) :
    (removePchTasksByProjectPartId projectsPartIds destination pc).1 =
      destination.filter (fun t => decide (t.projectPartId ∉ projectsPartIds)) := by
  have _ := hne
  rw [removePchTasksByProjectPartId_fst]
  exact set_difference_eq_filter destination projectsPartIds hd hi

theorem removePchTasksByProjectPartId_filter_witness :
    (removePchTasksByProjectPartId [5]
        [PchTask.mk "" [3] [1] "" "a", PchTask.mk "" [5] [2] "" "b", PchTask.mk "" [7] [3] "" "c"]
        []).1 = [PchTask.mk "" [3] [1] "" "a", PchTask.mk "" [7] [3] "" "c"] :=
  removePchTasksByProjectPartId_filter [5]
    [PchTask.mk "" [3] [1] "" "a", PchTask.mk "" [5] [2] "" "b", PchTask.mk "" [7] [3] "" "c"]
    [] (by simp [NonEmptyIds]) (by decide) (by decide)

theorem length_filter_not_mem (ids : List Int) (ts : PchTasks) :
    ts.length = (ts.filter (fun t => decide (t.projectPartId ∉ ids))).length + matchCount ids ts := by
  unfold matchCount
  induction ts with
  | nil => rfl
  | cons x xs ih =>
    by_cases h : x.projectPartId ∈ ids
    · rw [List.filter_cons, if_neg (by simpa using h), List.filter_cons,
        if_pos (by simpa using h), List.length_cons, List.length_cons, ih]
      omega
    · rw [List.filter_cons, if_pos (by simpa using h), List.filter_cons,
        if_neg (by simpa using h), List.length_cons, List.length_cons, ih]
      omega

/-- The value handed to `removeTotal` is the number of matching tasks, converted to `int`. -/
theorem removePchTasksByProjectPartId_snd (ids : ProjectPartIds) (d : PchTasks)
    (pc : ProgressCounter) (hd : StrictAscById d) (hi : ids.Pairwise (fun a b => a < b)) :
    (removePchTasksByProjectPartId ids d pc).2 =
      pc ++ [ProgressCall.removeTotal (intCast (matchCount ids d))] := by
  unfold removePchTasksByProjectPartId
  simp only [set_difference_eq_filter d ids hd hi]
  have hl := length_filter_not_mem ids d
  rw [show sizeSub d.length (d.filter (fun t => decide (t.projectPartId ∉ ids))).length =
    sizeSub ((d.filter (fun t => decide (t.projectPartId ∉ ids))).length + matchCount ids d)
      (d.filter (fun t => decide (t.projectPartId ∉ ids))).length from by rw [← hl],
    intCast_sizeSub]

/-- C5, amended: for a destination whose tasks all have a `projectPartId()` (a non-empty
`projectPartIds`) and which is strictly ascending by it, a strictly ascending id list and fewer
than `2^31` matching tasks, `removePchTasksByProjectPartId` makes exactly one progress call,
`removeTotal`, whose argument is the number of tasks of the old destination whose
`projectPartId()` is in the list. -/
theorem removePchTasksByProjectPartId_removeTotal (projectsPartIds : ProjectPartIds)
    (destination : PchTasks) (pc : ProgressCounter) (hne : NonEmptyIds destination)
    (hd : StrictAscById destination) (hi : projectsPartIds.Pairwise (fun a b => a < b))
    (hb : matchCount projectsPartIds destination < 2 ^ 31) :
    (removePchTasksByProjectPartId projectsPartIds destination pc).2 =
      pc ++ [ProgressCall.removeTotal (matchCount projectsPartIds destination : Int)] := by
  have _ := hne
  rw [removePchTasksByProjectPartId_snd _ _ _ hd hi, intCast_of_lt hb]

theorem removePchTasksByProjectPartId_removeTotal_witness :
    (removePchTasksByProjectPartId [4, 5]
        [PchTask.mk "" [3] [1] "" "a", PchTask.mk "" [5] [2] "" "b", PchTask.mk "" [7] [3] "" "c"]
        []).2 = [] ++ [ProgressCall.removeTotal ((1 : Nat) : Int)] :=
  removePchTasksByProjectPartId_removeTotal [4, 5]
    [PchTask.mk "" [3] [1] "" "a", PchTask.mk "" [5] [2] "" "b", PchTask.mk "" [7] [3] "" "c"]
    [] (by simp [NonEmptyIds]) (by decide) (by decide) (by decide)

theorem strictAscById_ascendingTasks (n : Nat) : StrictAscById (ascendingTasks n) := by
  unfold StrictAscById ascendingTasks
  rw [List.pairwise_map]
  refine (List.pairwise_lt_range n).imp ?_
  intro a b h
  exact Int.ofNat_lt.2 h

theorem nonEmptyIds_ascendingTasks (n : Nat) : NonEmptyIds (ascendingTasks n) := by
  intro t ht
  unfold ascendingTasks at ht
  obtain ⟨i, -, rfl⟩ := List.mem_map.1 ht
  exact List.cons_ne_nil _ _

theorem pairwise_ascendingIds (n : Nat) : (ascendingIds n).Pairwise (fun a b => a < b) := by
  unfold ascendingIds
  rw [List.pairwise_map]
  refine (List.pairwise_lt_range n).imp ?_
  intro a b h
  exact Int.ofNat_lt.2 h

theorem matchCount_ascending (n : Nat) : matchCount (ascendingIds n) (ascendingTasks n) = n := by
  unfold matchCount
  rw [List.filter_eq_self.2, ascendingTasks, List.length_map, List.length_range]
  intro t ht
  unfold ascendingTasks at ht
  obtain ⟨i, hi, rfl⟩ := List.mem_map.1 ht
  simp only [decide_eq_true_eq, PchTask.projectPartId, List.headD_cons]
  exact List.mem_map.2 ⟨i, hi, rfl⟩

/-- C5, as stated, fails: removing the ids `0, ..., 2^31 - 1` from the `2^31` tasks with these
ids (every task with the one id, both ranges strictly ascending) removes `2^31` tasks, but the
size difference is converted to `int` and `removeTotal` receives `-2147483648`. -/
theorem removeTotal_argument_wraps :
    NonEmptyIds (ascendingTasks 2147483648) ∧
      StrictAscById (ascendingTasks 2147483648) ∧
      (ascendingIds 2147483648).Pairwise (fun a b => a < b) ∧
      matchCount (ascendingIds 2147483648) (ascendingTasks 2147483648) = 2147483648 ∧
      (removePchTasksByProjectPartId (ascendingIds 2147483648) (ascendingTasks 2147483648) []).2 =
        [ProgressCall.removeTotal (-2147483648)] := by
  refine ⟨nonEmptyIds_ascendingTasks _, strictAscById_ascendingTasks _, pairwise_ascendingIds _,
    matchCount_ascending _, ?_⟩
  rw [removePchTasksByProjectPartId_snd _ _ _ (strictAscById_ascendingTasks _)
    (pairwise_ascendingIds _), matchCount_ascending]
  decide

theorem sizeSub_self (n : Nat) : sizeSub n n = 0 := by
  unfold sizeSub
  omega

theorem progressTotal_append_removeTotal_zero (pc : ProgressCounter) :
    progressTotal (pc ++ [ProgressCall.removeTotal 0]) = progressTotal pc := by
  induction pc with
  | nil => simp [progressTotal]
  | cons c cs ih => cases c <;> simp [progressTotal, ih]

/-- C6: for every destination, sorted or not, `removePchTasksByProjectPartId` with an empty id
list returns the destination as it was and makes the one progress call `removeTotal(0)`, which
leaves the progress total where it was. -/
theorem removePchTasksByProjectPartId_nil (destination : PchTasks) (pc : ProgressCounter) :
    removePchTasksByProjectPartId [] destination pc =
        (destination, pc ++ [ProgressCall.removeTotal 0]) ∧
      progressTotal (removePchTasksByProjectPartId [] destination pc).2 = progressTotal pc := by
  have h : removePchTasksByProjectPartId [] destination pc =
      (destination, pc ++ [ProgressCall.removeTotal 0]) := by
    unfold removePchTasksByProjectPartId
    simp only [set_difference_nil_right, sizeSub_self]
    rfl
  rw [h]
  exact ⟨rfl, progressTotal_append_removeTotal_zero pc⟩


/-! ## The scheduling tick -/

theorem min_intCast {f s : Nat} (hf : f < 2 ^ 31) (hs : s < 2 ^ 31) :
    min (intCast f) (intCast s) = ((min f s : Nat) : Int) := by
  rw [intCast_of_lt hf, intCast_of_lt hs]
  omega

theorem prevEnd_of_lt {f s : Nat} (hf : f < 2 ^ 31) (hs : s < 2 ^ 31) :
    prevEnd s (min (intCast f) (intCast s)) = some (s - min f s) := by
  rw [min_intCast hf hs]
  unfold prevEnd
  rw [if_pos (by omega), Int.toNat_ofNat]

theorem prevEnd_le {size : Nat} {n : Int} {k : Nat} (h : prevEnd size n = some k) : k ≤ size := by
  unfold prevEnd at h
  split_ifs at h
  cases h
  omega

/-- What the system step does whenever it is defined: it splits the collection at an index. -/
theorem processSystemPchTasks_some {σ : Type} (I : TaskSchedulerInterface σ)
    (q q' : PchTaskQueue σ) (h : processSystemPchTasks I q = some q') :
    ∃ k, k ≤ q.m_systemPchTasks.length ∧
      prevEnd q.m_systemPchTasks.length
        (min (intCast (I.slotUsage q.m_systemPchTaskScheduler).free)
          (intCast q.m_systemPchTasks.length)) = some k ∧
      q' = { q with
        m_systemPchTaskScheduler :=
          I.addTasks (createSystemTasks (q.m_systemPchTasks.drop k)) q.m_systemPchTaskScheduler
        m_systemPchTasks := q.m_systemPchTasks.take k
        systemSchedulerCalls := q.systemSchedulerCalls ++
          [SchedulerCall.slotUsage,
            SchedulerCall.addTasks (createSystemTasks (q.m_systemPchTasks.drop k))] } := by
  unfold processSystemPchTasks at h
  cases hp : prevEnd q.m_systemPchTasks.length
      (min (intCast (I.slotUsage q.m_systemPchTaskScheduler).free)
        (intCast q.m_systemPchTasks.length)) with
  | none => simp [hp] at h
  | some k =>
    simp only [hp, Option.some.injEq] at h
    exact ⟨k, prevEnd_le hp, rfl, h.symm⟩

/-- What the project step does when the gate is closed. -/
theorem processProjectPchTasks_blocked {σ : Type} (I : TaskSchedulerInterface σ)
    (q : PchTaskQueue σ) (h : (I.slotUsage q.m_systemPchTaskScheduler).used ≠ 0) :
    processProjectPchTasks I q =
      some { q with systemSchedulerCalls := q.systemSchedulerCalls ++ [SchedulerCall.slotUsage] } := by
  unfold processProjectPchTasks
  simp only [if_neg h]

/-- What the project step does, whenever it is defined, when the gate is open. -/
theorem processProjectPchTasks_some {σ : Type} (I : TaskSchedulerInterface σ)
    (q q' : PchTaskQueue σ) (hu : (I.slotUsage q.m_systemPchTaskScheduler).used = 0)
    (h : processProjectPchTasks I q = some q') :
    ∃ k, k ≤ q.m_projectPchTasks.length ∧
      prevEnd q.m_projectPchTasks.length
        (min (intCast (I.slotUsage q.m_projectPchTaskScheduler).free)
          (intCast q.m_projectPchTasks.length)) = some k ∧
      q' = { q with
        m_projectPchTaskScheduler :=
          I.addTasks (createProjectTasks (q.m_projectPchTasks.drop k)) q.m_projectPchTaskScheduler
        m_projectPchTasks := q.m_projectPchTasks.take k
        systemSchedulerCalls := q.systemSchedulerCalls ++ [SchedulerCall.slotUsage]
        projectSchedulerCalls := q.projectSchedulerCalls ++
          [SchedulerCall.slotUsage,
            SchedulerCall.addTasks (createProjectTasks (q.m_projectPchTasks.drop k))] } := by
  unfold processProjectPchTasks at h
  simp only [if_pos hu] at h
  cases hp : prevEnd q.m_projectPchTasks.length
      (min (intCast (I.slotUsage q.m_projectPchTaskScheduler).free)
        (intCast q.m_projectPchTasks.length)) with
  | none => simp [hp] at h
  | some k =>
    simp only [hp, Option.some.injEq] at h
    exact ⟨k, prevEnd_le hp, rfl, h.symm⟩

theorem processEntries_eq_some {σ : Type} (I : TaskSchedulerInterface σ)
    (q q' : PchTaskQueue σ) (h : processEntries I q = some q') :
    ∃ q1, processSystemPchTasks I q = some q1 ∧ processProjectPchTasks I q1 = some q' := by
  unfold processEntries at h
  exact Option.bind_eq_some.1 h

theorem processEntries_of_steps {σ : Type} {I : TaskSchedulerInterface σ}
    {q q1 q2 : PchTaskQueue σ} (h1 : processSystemPchTasks I q = some q1)
    (h2 : processProjectPchTasks I q1 = some q2) : processEntries I q = some q2 := by
  unfold processEntries
  rw [h1, Option.some_bind, h2]

/-- C7: whenever the system scheduler reports `used > 0` at the moment the project step of
`processEntries` queries it (that is, in the state the system step leaves), `processEntries`
makes no call at all on the project scheduler, so no closure is handed to it, and the project
collection after the call is the one before it, whatever the project scheduler's free count and
however many project tasks are pending. -/
theorem processEntries_priority_gate {σ : Type} (I : TaskSchedulerInterface σ)
    (q q1 : PchTaskQueue σ) (h1 : processSystemPchTasks I q = some q1)
    (hu : 0 < (I.slotUsage q1.m_systemPchTaskScheduler).used) :
    ∃ q2, processEntries I q = some q2 ∧
      q2.projectSchedulerCalls = q.projectSchedulerCalls ∧
      q2.m_projectPchTasks = q.m_projectPchTasks ∧
      q2.m_projectPchTaskScheduler = q.m_projectPchTaskScheduler := by
  obtain ⟨k, -, -, e⟩ := processSystemPchTasks_some I q q1 h1
  have h2 := processProjectPchTasks_blocked I q1 (Nat.pos_iff_ne_zero.1 hu)
  refine ⟨{ q1 with systemSchedulerCalls := q1.systemSchedulerCalls ++ [SchedulerCall.slotUsage] },
    ?_, ?_, ?_, ?_⟩
  · unfold processEntries
    rw [h1, Option.some_bind, h2]
  · show q1.projectSchedulerCalls = _
    rw [e]
  · show q1.m_projectPchTasks = _
    rw [e]
  · show q1.m_projectPchTaskScheduler = _
    rw [e]


theorem processEntries_priority_gate_witness :
    ∃ q2, processEntries countingScheduler
        (queueOf [] [PchTask.mk "" [5] [1] "" "", PchTask.mk "" [6] [1] "" ""]
          (SlotUsage.mk 1 2) (SlotUsage.mk 3 0)) = some q2 ∧
      q2.projectSchedulerCalls = [] ∧
      q2.m_projectPchTasks = [PchTask.mk "" [5] [1] "" "", PchTask.mk "" [6] [1] "" ""] ∧
      q2.m_projectPchTaskScheduler = SlotUsage.mk 3 0 :=
  processEntries_priority_gate countingScheduler
    (queueOf [] [PchTask.mk "" [5] [1] "" "", PchTask.mk "" [6] [1] "" ""]
      (SlotUsage.mk 1 2) (SlotUsage.mk 3 0))
    { queueOf [] [PchTask.mk "" [5] [1] "" "", PchTask.mk "" [6] [1] "" ""]
        (SlotUsage.mk 1 2) (SlotUsage.mk 3 0) with
      systemSchedulerCalls := [SchedulerCall.slotUsage, SchedulerCall.addTasks []] }
    rfl (by decide)

theorem processSystemPchTasks_of_lt {σ : Type} (I : TaskSchedulerInterface σ)
    (q : PchTaskQueue σ) (hf : (I.slotUsage q.m_systemPchTaskScheduler).free < 2 ^ 31)
    (hs : q.m_systemPchTasks.length < 2 ^ 31) :
    processSystemPchTasks I q = some { q with
      m_systemPchTaskScheduler := I.addTasks
        (createSystemTasks (q.m_systemPchTasks.drop (q.m_systemPchTasks.length -
          min (I.slotUsage q.m_systemPchTaskScheduler).free q.m_systemPchTasks.length)))
        q.m_systemPchTaskScheduler
      m_systemPchTasks := q.m_systemPchTasks.take (q.m_systemPchTasks.length -
        min (I.slotUsage q.m_systemPchTaskScheduler).free q.m_systemPchTasks.length)
      systemSchedulerCalls := q.systemSchedulerCalls ++
        [SchedulerCall.slotUsage,
          SchedulerCall.addTasks (createSystemTasks (q.m_systemPchTasks.drop
            (q.m_systemPchTasks.length -
              min (I.slotUsage q.m_systemPchTaskScheduler).free q.m_systemPchTasks.length)))] } := by
  unfold processSystemPchTasks
  simp only [prevEnd_of_lt hf hs]

theorem processProjectPchTasks_of_lt {σ : Type} (I : TaskSchedulerInterface σ)
    (q : PchTaskQueue σ) (hu : (I.slotUsage q.m_systemPchTaskScheduler).used = 0)
    (hf : (I.slotUsage q.m_projectPchTaskScheduler).free < 2 ^ 31)
    (hs : q.m_projectPchTasks.length < 2 ^ 31) :
    processProjectPchTasks I q = some { q with
      m_projectPchTaskScheduler := I.addTasks
        (createProjectTasks (q.m_projectPchTasks.drop (q.m_projectPchTasks.length -
          min (I.slotUsage q.m_projectPchTaskScheduler).free q.m_projectPchTasks.length)))
        q.m_projectPchTaskScheduler
      m_projectPchTasks := q.m_projectPchTasks.take (q.m_projectPchTasks.length -
        min (I.slotUsage q.m_projectPchTaskScheduler).free q.m_projectPchTasks.length)
      systemSchedulerCalls := q.systemSchedulerCalls ++ [SchedulerCall.slotUsage]
      projectSchedulerCalls := q.projectSchedulerCalls ++
        [SchedulerCall.slotUsage,
          SchedulerCall.addTasks (createProjectTasks (q.m_projectPchTasks.drop
            (q.m_projectPchTasks.length -
              min (I.slotUsage q.m_projectPchTaskScheduler).free q.m_projectPchTasks.length)))] } := by
  unfold processProjectPchTasks
  simp only [if_pos hu, prevEnd_of_lt hf hs]

theorem length_createSystemTasks (ts : PchTasks) : (createSystemTasks ts).length = ts.length := by
  simp [createSystemTasks]

theorem length_createProjectTasks (ts : PchTasks) : (createProjectTasks ts).length = ts.length := by
  simp [createProjectTasks]

/-- C8, amended: when both reported free counts and both collection sizes are below `2^31`,
one `processEntries` call hands the system scheduler exactly `min(free, size)` closures and,
when the system scheduler reports `used = 0` at the gate, hands the project scheduler exactly
`min(free, size)` closures; so it never hands a scheduler more closures than its free count, and
a collection no larger than the free count is drained completely. -/
theorem processEntries_admission_count {σ : Type} (I : TaskSchedulerInterface σ)
    (q : PchTaskQueue σ)
    (hsf : (I.slotUsage q.m_systemPchTaskScheduler).free < 2 ^ 31)
    (hss : q.m_systemPchTasks.length < 2 ^ 31)
    (hpf : (I.slotUsage q.m_projectPchTaskScheduler).free < 2 ^ 31)
    (hps : q.m_projectPchTasks.length < 2 ^ 31) :
    ∃ q' systemBatch, processEntries I q = some q' ∧
      q'.systemSchedulerCalls = q.systemSchedulerCalls ++
        [SchedulerCall.slotUsage, SchedulerCall.addTasks systemBatch, SchedulerCall.slotUsage] ∧
      systemBatch.length =
        min (I.slotUsage q.m_systemPchTaskScheduler).free q.m_systemPchTasks.length ∧
      systemBatch.length ≤ (I.slotUsage q.m_systemPchTaskScheduler).free ∧
      q'.m_systemPchTasks.length = q.m_systemPchTasks.length - systemBatch.length ∧
      (q.m_systemPchTasks.length ≤ (I.slotUsage q.m_systemPchTaskScheduler).free →
        q'.m_systemPchTasks = []) ∧
      ((I.slotUsage q'.m_systemPchTaskScheduler).used = 0 →
        ∃ projectBatch,
          q'.projectSchedulerCalls = q.projectSchedulerCalls ++
            [SchedulerCall.slotUsage, SchedulerCall.addTasks projectBatch] ∧
          projectBatch.length =
            min (I.slotUsage q.m_projectPchTaskScheduler).free q.m_projectPchTasks.length ∧
          projectBatch.length ≤ (I.slotUsage q.m_projectPchTaskScheduler).free ∧
          q'.m_projectPchTasks.length = q.m_projectPchTasks.length - projectBatch.length ∧
          (q.m_projectPchTasks.length ≤ (I.slotUsage q.m_projectPchTaskScheduler).free →
            q'.m_projectPchTasks = [])) := by
  have h1 := processSystemPchTasks_of_lt I q hsf hss
  generalize hq1 : ({ q with
      m_systemPchTaskScheduler := I.addTasks
        (createSystemTasks (q.m_systemPchTasks.drop (q.m_systemPchTasks.length -
          min (I.slotUsage q.m_systemPchTaskScheduler).free q.m_systemPchTasks.length)))
        q.m_systemPchTaskScheduler
      m_systemPchTasks := q.m_systemPchTasks.take (q.m_systemPchTasks.length -
        min (I.slotUsage q.m_systemPchTaskScheduler).free q.m_systemPchTasks.length)
      systemSchedulerCalls := q.systemSchedulerCalls ++
        [SchedulerCall.slotUsage,
          SchedulerCall.addTasks (createSystemTasks (q.m_systemPchTasks.drop
            (q.m_systemPchTasks.length -
              min (I.slotUsage q.m_systemPchTaskScheduler).free q.m_systemPchTasks.length)))] } :
      PchTaskQueue σ) = q1 at h1
  have e1 : q1.m_projectPchTasks = q.m_projectPchTasks := by rw [← hq1]
  have e2 : q1.m_projectPchTaskScheduler = q.m_projectPchTaskScheduler := by rw [← hq1]
  have e3 : q1.projectSchedulerCalls = q.projectSchedulerCalls := by rw [← hq1]
  have e4 : q1.systemSchedulerCalls = q.systemSchedulerCalls ++
        [SchedulerCall.slotUsage,
          SchedulerCall.addTasks (createSystemTasks (q.m_systemPchTasks.drop
            (q.m_systemPchTasks.length -
              min (I.slotUsage q.m_systemPchTaskScheduler).free q.m_systemPchTasks.length)))] := by
    rw [← hq1]
  have e5 : q1.m_systemPchTasks = q.m_systemPchTasks.take (q.m_systemPchTasks.length -
        min (I.slotUsage q.m_systemPchTaskScheduler).free q.m_systemPchTasks.length) := by
    rw [← hq1]
  have hb : (createSystemTasks (q.m_systemPchTasks.drop (q.m_systemPchTasks.length -
      min (I.slotUsage q.m_systemPchTaskScheduler).free q.m_systemPchTasks.length))).length =
      min (I.slotUsage q.m_systemPchTaskScheduler).free q.m_systemPchTasks.length := by
    rw [length_createSystemTasks, List.length_drop]; omega
  have hsys : ∀ q' : PchTaskQueue σ, q'.m_systemPchTasks = q1.m_systemPchTasks →
      q'.m_systemPchTasks.length = q.m_systemPchTasks.length -
          (createSystemTasks (q.m_systemPchTasks.drop (q.m_systemPchTasks.length -
            min (I.slotUsage q.m_systemPchTaskScheduler).free
              q.m_systemPchTasks.length))).length ∧
        (q.m_systemPchTasks.length ≤ (I.slotUsage q.m_systemPchTaskScheduler).free →
          q'.m_systemPchTasks = []) := by
    intro q' hq'
    rw [hq', e5, hb]
    refine ⟨by rw [List.length_take]; omega, fun hle => ?_⟩
    rw [Nat.min_eq_right hle, Nat.sub_self, List.take_zero]
  by_cases hu : (I.slotUsage q1.m_systemPchTaskScheduler).used = 0
  · have h2 := processProjectPchTasks_of_lt I q1 hu (by rw [e2]; exact hpf) (by rw [e1]; exact hps)
    refine ⟨_, _, processEntries_of_steps h1 h2, ?_, hb,
      by rw [hb]; exact Nat.min_le_left _ _, (hsys _ rfl).1, (hsys _ rfl).2,
      fun _ => ⟨createProjectTasks (q.m_projectPchTasks.drop (q.m_projectPchTasks.length -
        min (I.slotUsage q.m_projectPchTaskScheduler).free q.m_projectPchTasks.length)),
        ?_, ?_, ?_, ?_, ?_⟩⟩
    · show q1.systemSchedulerCalls ++ [SchedulerCall.slotUsage] = _
      rw [e4]; simp
    · show q1.projectSchedulerCalls ++ _ = _
      rw [e3, e1, e2]
    · rw [length_createProjectTasks, List.length_drop]; omega
    · rw [length_createProjectTasks, List.length_drop]; omega
    · show (q1.m_projectPchTasks.take _).length = _
      rw [e1, e2, length_createProjectTasks, List.length_take, List.length_drop]; omega
    · intro hle
      show q1.m_projectPchTasks.take _ = []
      rw [e1, e2, Nat.min_eq_right hle, Nat.sub_self, List.take_zero]
  · have h2 := processProjectPchTasks_blocked I q1 hu
    refine ⟨_, _, processEntries_of_steps h1 h2, ?_, hb,
      by rw [hb]; exact Nat.min_le_left _ _, (hsys _ rfl).1, (hsys _ rfl).2,
      fun h0 => absurd h0 hu⟩
    show q1.systemSchedulerCalls ++ [SchedulerCall.slotUsage] = _
    rw [e4]; simp


theorem processEntries_admission_count_witness :
    ∃ q' systemBatch, processEntries countingScheduler
        (queueOf [PchTask.mk "" [1, 2] [1] "" ""] [] (SlotUsage.mk 1 0) (SlotUsage.mk 0 0)) =
          some q' ∧
      q'.systemSchedulerCalls = [] ++
        [SchedulerCall.slotUsage, SchedulerCall.addTasks systemBatch, SchedulerCall.slotUsage] ∧
      systemBatch.length = min 1 1 ∧
      systemBatch.length ≤ 1 ∧
      q'.m_systemPchTasks.length = 1 - systemBatch.length ∧
      (1 ≤ 1 → q'.m_systemPchTasks = []) ∧
      ((countingScheduler.slotUsage q'.m_systemPchTaskScheduler).used = 0 →
        ∃ projectBatch,
          q'.projectSchedulerCalls = [] ++
            [SchedulerCall.slotUsage, SchedulerCall.addTasks projectBatch] ∧
          projectBatch.length = min 0 0 ∧
          projectBatch.length ≤ 0 ∧
          q'.m_projectPchTasks.length = 0 - projectBatch.length ∧
          (0 ≤ 0 → q'.m_projectPchTasks = [])) :=
  processEntries_admission_count countingScheduler
    (queueOf [PchTask.mk "" [1, 2] [1] "" ""] [] (SlotUsage.mk 1 0) (SlotUsage.mk 0 0))
    (by decide) (by decide) (by decide) (by decide)

/-- C8, as stated, fails: with one pending system task and a reported free count of `2^31`
(a valid `uint`), `int(freeTaskCount)` is `-2147483648`, so is the `min<int>`, and
`std::prev(end, n)` leaves the vector: the call is not defined, instead of handing over
`min(2^31, 1) = 1` closure. -/
theorem free_count_beyond_int_undefined :
    (countingScheduler.slotUsage
        (queueOf [PchTask.mk "" [1, 2] [1] "" ""] [] (SlotUsage.mk 2147483648 0)
          (SlotUsage.mk 0 0)).m_systemPchTaskScheduler).free = 2147483648 ∧
      min (intCast 2147483648) (intCast 1) = -2147483648 ∧
      processEntries countingScheduler
        (queueOf [PchTask.mk "" [1, 2] [1] "" ""] [] (SlotUsage.mk 2147483648 0)
          (SlotUsage.mk 0 0)) = none := by
  refine ⟨rfl, by decide, rfl⟩

/-- C9: whenever a process step is carried out, the collection before it is the collection after
it followed by the removed tasks, so the removed tasks are its last `N` entries and the rest is
its first `S - N` entries in unchanged order; the batch handed to `addTasks` is the list of the
closures built from the removed tasks, one each, in the same order; and when the collection was
strictly ascending every removed key is larger than every kept key and no removed task is still
pending. This holds for the system step and, with the gate open, for the project step. -/
theorem process_drains_tail {σ : Type} (I : TaskSchedulerInterface σ)
    (q qs qp : PchTaskQueue σ) :
    (processSystemPchTasks I q = some qs →
      ∃ removed : PchTasks,
        q.m_systemPchTasks = qs.m_systemPchTasks ++ removed ∧
        qs.m_systemPchTasks =
          q.m_systemPchTasks.take (q.m_systemPchTasks.length - removed.length) ∧
        removed = q.m_systemPchTasks.drop (q.m_systemPchTasks.length - removed.length) ∧
        qs.systemSchedulerCalls = q.systemSchedulerCalls ++
          [SchedulerCall.slotUsage, SchedulerCall.addTasks (removed.map Task.system)] ∧
        qs.m_systemPchTaskScheduler =
          I.addTasks (removed.map Task.system) q.m_systemPchTaskScheduler ∧
        (StrictAsc q.m_systemPchTasks →
          (∀ a ∈ qs.m_systemPchTasks, ∀ b ∈ removed, compare a b = true) ∧
          (∀ b ∈ removed, b ∉ qs.m_systemPchTasks))) ∧
    (processProjectPchTasks I q = some qp →
      (I.slotUsage q.m_systemPchTaskScheduler).used = 0 →
      ∃ removed : PchTasks,
        q.m_projectPchTasks = qp.m_projectPchTasks ++ removed ∧
        qp.m_projectPchTasks =
          q.m_projectPchTasks.take (q.m_projectPchTasks.length - removed.length) ∧
        removed = q.m_projectPchTasks.drop (q.m_projectPchTasks.length - removed.length) ∧
        qp.projectSchedulerCalls = q.projectSchedulerCalls ++
          [SchedulerCall.slotUsage, SchedulerCall.addTasks (removed.map Task.project)] ∧
        qp.m_projectPchTaskScheduler =
          I.addTasks (removed.map Task.project) q.m_projectPchTaskScheduler ∧
        (StrictAsc q.m_projectPchTasks →
          (∀ a ∈ qp.m_projectPchTasks, ∀ b ∈ removed, compare a b = true) ∧
          (∀ b ∈ removed, b ∉ qp.m_projectPchTasks))) := by
  have key : ∀ (ts : PchTasks) (k : Nat), k ≤ ts.length →
      ts = ts.take k ++ ts.drop k ∧
      ts.take k = ts.take (ts.length - (ts.drop k).length) ∧
      ts.drop k = ts.drop (ts.length - (ts.drop k).length) ∧
      (StrictAsc ts →
        (∀ a ∈ ts.take k, ∀ b ∈ ts.drop k, compare a b = true) ∧
        (∀ b ∈ ts.drop k, b ∉ ts.take k)) := by
    intro ts k hk
    have hl : ts.length - (ts.drop k).length = k := by rw [List.length_drop]; omega
    refine ⟨(List.take_append_drop k ts).symm, by rw [hl], by rw [hl], fun hs => ?_⟩
    have hs' : StrictAsc (ts.take k ++ ts.drop k) := by rwa [List.take_append_drop]
    have hc := (List.pairwise_append.1 hs').2.2
    exact ⟨hc, fun b hb hb' => compare_ne (hc b hb' b hb) rfl⟩
  constructor
  · intro h
    obtain ⟨k, hk, -, e⟩ := processSystemPchTasks_some I q qs h
    obtain ⟨k1, k2, k3, k4⟩ := key q.m_systemPchTasks k hk
    refine ⟨q.m_systemPchTasks.drop k, ?_, ?_, k3, ?_, ?_, ?_⟩
    · rw [e]; exact k1
    · rw [e]; exact k2
    · rw [e]; rfl
    · rw [e]; rfl
    · rw [e]; exact k4
  · intro h hu
    obtain ⟨k, hk, -, e⟩ := processProjectPchTasks_some I q qp hu h
    obtain ⟨k1, k2, k3, k4⟩ := key q.m_projectPchTasks k hk
    refine ⟨q.m_projectPchTasks.drop k, ?_, ?_, k3, ?_, ?_, ?_⟩
    · rw [e]; exact k1
    · rw [e]; exact k2
    · rw [e]; rfl
    · rw [e]; rfl
    · rw [e]; exact k4

theorem process_drains_tail_witness :
    (∃ removed : PchTasks,
      [PchTask.mk "" [1] [1] "" "a", PchTask.mk "" [2] [] "" "b", PchTask.mk "" [3, 4] [2] "" "c"] =
        [PchTask.mk "" [1] [1] "" "a"] ++ removed ∧
      [PchTask.mk "" [1] [1] "" "a"] =
        [PchTask.mk "" [1] [1] "" "a", PchTask.mk "" [2] [] "" "b",
          PchTask.mk "" [3, 4] [2] "" "c"].take (3 - removed.length) ∧
      removed =
        [PchTask.mk "" [1] [1] "" "a", PchTask.mk "" [2] [] "" "b",
          PchTask.mk "" [3, 4] [2] "" "c"].drop (3 - removed.length) ∧
      [SchedulerCall.slotUsage,
          SchedulerCall.addTasks [Task.system (PchTask.mk "" [2] [] "" "b"),
            Task.system (PchTask.mk "" [3, 4] [2] "" "c")]] =
        [] ++ [SchedulerCall.slotUsage, SchedulerCall.addTasks (removed.map Task.system)] ∧
      SlotUsage.mk 0 2 = countingScheduler.addTasks (removed.map Task.system) (SlotUsage.mk 2 0) ∧
      (StrictAsc [PchTask.mk "" [1] [1] "" "a", PchTask.mk "" [2] [] "" "b",
          PchTask.mk "" [3, 4] [2] "" "c"] →
        (∀ a ∈ [PchTask.mk "" [1] [1] "" "a"], ∀ b ∈ removed, compare a b = true) ∧
        (∀ b ∈ removed, b ∉ [PchTask.mk "" [1] [1] "" "a"]))) ∧
    (∃ removed : PchTasks,
      [PchTask.mk "" [5] [1] "" "p", PchTask.mk "" [6] [1] "" "q"] =
        [PchTask.mk "" [5] [1] "" "p"] ++ removed ∧
      [PchTask.mk "" [5] [1] "" "p"] =
        [PchTask.mk "" [5] [1] "" "p", PchTask.mk "" [6] [1] "" "q"].take (2 - removed.length) ∧
      removed =
        [PchTask.mk "" [5] [1] "" "p", PchTask.mk "" [6] [1] "" "q"].drop (2 - removed.length) ∧
      [SchedulerCall.slotUsage,
          SchedulerCall.addTasks [Task.project (PchTask.mk "" [6] [1] "" "q")]] =
        [] ++ [SchedulerCall.slotUsage, SchedulerCall.addTasks (removed.map Task.project)] ∧
      SlotUsage.mk 0 1 = countingScheduler.addTasks (removed.map Task.project) (SlotUsage.mk 1 0) ∧
      (StrictAsc [PchTask.mk "" [5] [1] "" "p", PchTask.mk "" [6] [1] "" "q"] →
        (∀ a ∈ [PchTask.mk "" [5] [1] "" "p"], ∀ b ∈ removed, compare a b = true) ∧
        (∀ b ∈ removed, b ∉ [PchTask.mk "" [5] [1] "" "p"]))) :=
  ⟨(process_drains_tail countingScheduler
      (queueOf [PchTask.mk "" [1] [1] "" "a", PchTask.mk "" [2] [] "" "b",
          PchTask.mk "" [3, 4] [2] "" "c"]
        [PchTask.mk "" [5] [1] "" "p", PchTask.mk "" [6] [1] "" "q"]
        (SlotUsage.mk 2 0) (SlotUsage.mk 1 0))
      { m_systemPchTasks := [PchTask.mk "" [1] [1] "" "a"]
        m_projectPchTasks := [PchTask.mk "" [5] [1] "" "p", PchTask.mk "" [6] [1] "" "q"]
        m_systemPchTaskScheduler := SlotUsage.mk 0 2
        m_projectPchTaskScheduler := SlotUsage.mk 1 0
        m_progressCounter := []
        systemSchedulerCalls :=
          [SchedulerCall.slotUsage,
            SchedulerCall.addTasks [Task.system (PchTask.mk "" [2] [] "" "b"),
              Task.system (PchTask.mk "" [3, 4] [2] "" "c")]]
        projectSchedulerCalls := [] }
      { m_systemPchTasks := [PchTask.mk "" [1] [1] "" "a", PchTask.mk "" [2] [] "" "b",
          PchTask.mk "" [3, 4] [2] "" "c"]
        m_projectPchTasks := [PchTask.mk "" [5] [1] "" "p"]
        m_systemPchTaskScheduler := SlotUsage.mk 2 0
        m_projectPchTaskScheduler := SlotUsage.mk 0 1
        m_progressCounter := []
        systemSchedulerCalls := [SchedulerCall.slotUsage]
        projectSchedulerCalls :=
          [SchedulerCall.slotUsage,
            SchedulerCall.addTasks [Task.project (PchTask.mk "" [6] [1] "" "q")]] }).1 rfl,
    (process_drains_tail countingScheduler
      (queueOf [PchTask.mk "" [1] [1] "" "a", PchTask.mk "" [2] [] "" "b",
          PchTask.mk "" [3, 4] [2] "" "c"]
        [PchTask.mk "" [5] [1] "" "p", PchTask.mk "" [6] [1] "" "q"]
        (SlotUsage.mk 2 0) (SlotUsage.mk 1 0))
      { m_systemPchTasks := [PchTask.mk "" [1] [1] "" "a"]
        m_projectPchTasks := [PchTask.mk "" [5] [1] "" "p", PchTask.mk "" [6] [1] "" "q"]
        m_systemPchTaskScheduler := SlotUsage.mk 0 2
        m_projectPchTaskScheduler := SlotUsage.mk 1 0
        m_progressCounter := []
        systemSchedulerCalls :=
          [SchedulerCall.slotUsage,
            SchedulerCall.addTasks [Task.system (PchTask.mk "" [2] [] "" "b"),
              Task.system (PchTask.mk "" [3, 4] [2] "" "c")]]
        projectSchedulerCalls := [] }
      { m_systemPchTasks := [PchTask.mk "" [1] [1] "" "a", PchTask.mk "" [2] [] "" "b",
          PchTask.mk "" [3, 4] [2] "" "c"]
        m_projectPchTasks := [PchTask.mk "" [5] [1] "" "p"]
        m_systemPchTaskScheduler := SlotUsage.mk 2 0
        m_projectPchTaskScheduler := SlotUsage.mk 0 1
        m_progressCounter := []
        systemSchedulerCalls := [SchedulerCall.slotUsage]
        projectSchedulerCalls :=
          [SchedulerCall.slotUsage,
            SchedulerCall.addTasks [Task.project (PchTask.mk "" [6] [1] "" "q")]] }).2 rfl rfl⟩

/-- C10: with a scheduler whose `used` count rises by the number of closures handed to
`addTasks`, whenever `processEntries` admits at least one system task (the system collection
shrinks), it makes no call on the project scheduler in that call and leaves the project
collection as it was. -/
theorem processEntries_same_tick_reblocking {σ : Type} (I : TaskSchedulerInterface σ)
    (hI : ∀ (s : σ) (tasks : List Task),
      (I.slotUsage (I.addTasks tasks s)).used = (I.slotUsage s).used + tasks.length)
    (q q' : PchTaskQueue σ) (h : processEntries I q = some q')
    (hadm : q'.m_systemPchTasks.length < q.m_systemPchTasks.length) :
    q'.m_projectPchTasks = q.m_projectPchTasks ∧
      q'.projectSchedulerCalls = q.projectSchedulerCalls ∧
      q'.m_projectPchTaskScheduler = q.m_projectPchTaskScheduler := by
  obtain ⟨q1, h1, h2⟩ := processEntries_eq_some I q q' h
  obtain ⟨k, hk, -, e⟩ := processSystemPchTasks_some I q q1 h1
  have e1 : q1.m_systemPchTaskScheduler =
      I.addTasks (createSystemTasks (q.m_systemPchTasks.drop k)) q.m_systemPchTaskScheduler := by
    rw [e]
  have e2 : q1.m_systemPchTasks = q.m_systemPchTasks.take k := by rw [e]
  by_cases hu : (I.slotUsage q1.m_systemPchTaskScheduler).used = 0
  · exfalso
    rw [e1, hI, length_createSystemTasks, List.length_drop] at hu
    obtain ⟨k', -, -, e'⟩ := processProjectPchTasks_some I q1 q'
      (by rw [e1, hI, length_createSystemTasks, List.length_drop]; exact hu) h2
    have e3 : q'.m_systemPchTasks = q1.m_systemPchTasks := by rw [e']
    rw [e3, e2, List.length_take] at hadm
    omega
  · rw [processProjectPchTasks_blocked I q1 hu] at h2
    cases h2
    refine ⟨?_, ?_, ?_⟩
    · show q1.m_projectPchTasks = _
      rw [e]
    · show q1.projectSchedulerCalls = _
      rw [e]
    · show q1.m_projectPchTaskScheduler = _
      rw [e]

theorem processEntries_same_tick_reblocking_witness :
    processEntries countingScheduler
        (queueOf [PchTask.mk "" [1, 2] [1] "" ""] [PchTask.mk "" [5] [1] "" ""]
          (SlotUsage.mk 1 0) (SlotUsage.mk 1 0)) =
      some { m_systemPchTasks := []
             m_projectPchTasks := [PchTask.mk "" [5] [1] "" ""]
             m_systemPchTaskScheduler := SlotUsage.mk 0 1
             m_projectPchTaskScheduler := SlotUsage.mk 1 0
             m_progressCounter := []
             systemSchedulerCalls :=
               [SchedulerCall.slotUsage,
                 SchedulerCall.addTasks [Task.system (PchTask.mk "" [1, 2] [1] "" "")],
                 SchedulerCall.slotUsage]
             projectSchedulerCalls := [] } ∧
      ([PchTask.mk "" [5] [1] "" ""] = [PchTask.mk "" [5] [1] "" ""] ∧
        ([] : List SchedulerCall) = [] ∧ SlotUsage.mk 1 0 = SlotUsage.mk 1 0) :=
  ⟨rfl, processEntries_same_tick_reblocking countingScheduler (fun _ _ => rfl)
    (queueOf [PchTask.mk "" [1, 2] [1] "" ""] [PchTask.mk "" [5] [1] "" ""]
      (SlotUsage.mk 1 0) (SlotUsage.mk 1 0))
    { m_systemPchTasks := []
      m_projectPchTasks := [PchTask.mk "" [5] [1] "" ""]
      m_systemPchTaskScheduler := SlotUsage.mk 0 1
      m_projectPchTaskScheduler := SlotUsage.mk 1 0
      m_progressCounter := []
      systemSchedulerCalls :=
        [SchedulerCall.slotUsage,
          SchedulerCall.addTasks [Task.system (PchTask.mk "" [1, 2] [1] "" "")],
          SchedulerCall.slotUsage]
      projectSchedulerCalls := [] }
    rfl (by decide)⟩


/-! ## The closures -/

theorem Exec.bind_apply {ε ω α β : Type} (m : Exec ε ω α) (f : α → Exec ε ω β) (w : ω) :
    (m >>= f) w =
      match (m w).result with
      | Except.error e => ⟨(m w).calls, Except.error e⟩
      | Except.ok (a, w1) => ⟨(m w).calls ++ (f a w1).calls, (f a w1).result⟩ := rfl

theorem Exec.call_apply {ε ω α : Type} (c : CollaboratorCall) (op : ω → Except ε (α × ω))
    (w : ω) : Exec.call c op w = ⟨[c], op w⟩ := rfl

/-- The generation path of a project closure, as far as it gets. -/
theorem invoke_project_nonempty {ε ω : Type} (C : Collaborators ε ω) (pchTask : PchTask) (w : ω)
    (h : pchTask.includes ≠ []) :
    Task.invoke C (Task.project pchTask) w =
      match C.fetchSystemPrecompiledHeaderPath pchTask.projectPartId w with
      | Except.error e =>
        ⟨[CollaboratorCall.fetchSystemPrecompiledHeaderPath pchTask.projectPartId],
          Except.error e⟩
      | Except.ok (systemPchPath, w1) =>
        match C.preIncludeSearchPath w1 with
        | Except.error e =>
          ⟨[CollaboratorCall.fetchSystemPrecompiledHeaderPath pchTask.projectPartId,
              CollaboratorCall.preIncludeSearchPath], Except.error e⟩
        | Except.ok (preIncludeSearchPath, w2) =>
          match C.generatePch { pchTask with
              systemPchPath := systemPchPath
              preIncludeSearchPath := preIncludeSearchPath } w2 with
          | Except.error e =>
            ⟨[CollaboratorCall.fetchSystemPrecompiledHeaderPath pchTask.projectPartId,
                CollaboratorCall.preIncludeSearchPath,
                CollaboratorCall.generatePch { pchTask with
                  systemPchPath := systemPchPath
                  preIncludeSearchPath := preIncludeSearchPath }], Except.error e⟩
          | Except.ok (_, w3) =>
            match C.projectPartPch w3 with
            | Except.error e =>
              ⟨[CollaboratorCall.fetchSystemPrecompiledHeaderPath pchTask.projectPartId,
                  CollaboratorCall.preIncludeSearchPath,
                  CollaboratorCall.generatePch { pchTask with
                    systemPchPath := systemPchPath
                    preIncludeSearchPath := preIncludeSearchPath },
                  CollaboratorCall.projectPartPch], Except.error e⟩
            | Except.ok (projectPartPch, w4) =>
              if projectPartPch.pchPath = "" then
                ⟨[CollaboratorCall.fetchSystemPrecompiledHeaderPath pchTask.projectPartId,
                    CollaboratorCall.preIncludeSearchPath,
                    CollaboratorCall.generatePch { pchTask with
                      systemPchPath := systemPchPath
                      preIncludeSearchPath := preIncludeSearchPath },
                    CollaboratorCall.projectPartPch,
                    CollaboratorCall.deleteProjectPrecompiledHeader pchTask.projectPartId],
                  C.deleteProjectPrecompiledHeader pchTask.projectPartId w4⟩
              else
                ⟨[CollaboratorCall.fetchSystemPrecompiledHeaderPath pchTask.projectPartId,
                    CollaboratorCall.preIncludeSearchPath,
                    CollaboratorCall.generatePch { pchTask with
                      systemPchPath := systemPchPath
                      preIncludeSearchPath := preIncludeSearchPath },
                    CollaboratorCall.projectPartPch,
                    CollaboratorCall.insertProjectPrecompiledHeader pchTask.projectPartId
                      projectPartPch.pchPath projectPartPch.lastModified],
                  C.insertProjectPrecompiledHeader pchTask.projectPartId
                    projectPartPch.pchPath projectPartPch.lastModified w4⟩ := by
  have hl : pchTask.includes.length ≠ 0 := fun h0 => h (List.length_eq_zero.1 h0)
  simp only [Task.invoke, if_pos hl, Exec.bind_apply, Exec.call_apply]
  cases h1 : C.fetchSystemPrecompiledHeaderPath pchTask.projectPartId w with
  | error e => rfl
  | ok r1 =>
    obtain ⟨p, w1⟩ := r1
    simp only []
    cases h2 : C.preIncludeSearchPath w1 with
    | error e => rfl
    | ok r2 =>
      obtain ⟨s, w2⟩ := r2
      simp only []
      cases h3 : C.generatePch { pchTask with systemPchPath := p, preIncludeSearchPath := s } w2 with
      | error e => rfl
      | ok r3 =>
        obtain ⟨u, w3⟩ := r3
        simp only []
        cases h4 : C.projectPartPch w3 with
        | error e => rfl
        | ok r4 =>
          obtain ⟨pch, w4⟩ := r4
          simp only []
          by_cases hp : pch.pchPath = ""
          · simp [hp, Exec.call_apply]
          · simp [hp, Exec.call_apply]


/-- The generation path of a system closure, as far as it gets. -/
theorem invoke_system_nonempty {ε ω : Type} (C : Collaborators ε ω) (pchTask : PchTask) (w : ω)
    (h : pchTask.includes ≠ []) :
    Task.invoke C (Task.system pchTask) w =
      match C.preIncludeSearchPath w with
      | Except.error e => ⟨[CollaboratorCall.preIncludeSearchPath], Except.error e⟩
      | Except.ok (preIncludeSearchPath, w1) =>
        match C.generatePch { pchTask with preIncludeSearchPath := preIncludeSearchPath } w1 with
        | Except.error e =>
          ⟨[CollaboratorCall.preIncludeSearchPath,
              CollaboratorCall.generatePch
                { pchTask with preIncludeSearchPath := preIncludeSearchPath }], Except.error e⟩
        | Except.ok (_, w2) =>
          match C.projectPartPch w2 with
          | Except.error e =>
            ⟨[CollaboratorCall.preIncludeSearchPath,
                CollaboratorCall.generatePch
                  { pchTask with preIncludeSearchPath := preIncludeSearchPath },
                CollaboratorCall.projectPartPch], Except.error e⟩
          | Except.ok (projectPartPch, w3) =>
            if projectPartPch.pchPath = "" then
              ⟨[CollaboratorCall.preIncludeSearchPath,
                  CollaboratorCall.generatePch
                    { pchTask with preIncludeSearchPath := preIncludeSearchPath },
                  CollaboratorCall.projectPartPch,
                  CollaboratorCall.deleteSystemPrecompiledHeaders pchTask.projectPartIds],
                C.deleteSystemPrecompiledHeaders pchTask.projectPartIds w3⟩
            else
              ⟨[CollaboratorCall.preIncludeSearchPath,
                  CollaboratorCall.generatePch
                    { pchTask with preIncludeSearchPath := preIncludeSearchPath },
                  CollaboratorCall.projectPartPch,
                  CollaboratorCall.insertSystemPrecompiledHeaders pchTask.projectPartIds
                    projectPartPch.pchPath projectPartPch.lastModified],
                C.insertSystemPrecompiledHeaders pchTask.projectPartIds
                  projectPartPch.pchPath projectPartPch.lastModified w3⟩ := by
  have hl : pchTask.includes.length ≠ 0 := fun h0 => h (List.length_eq_zero.1 h0)
  simp only [Task.invoke, if_pos hl, Exec.bind_apply, Exec.call_apply]
  cases h2 : C.preIncludeSearchPath w with
  | error e => rfl
  | ok r2 =>
    obtain ⟨s, w1⟩ := r2
    simp only []
    cases h3 : C.generatePch { pchTask with preIncludeSearchPath := s } w1 with
    | error e => rfl
    | ok r3 =>
      obtain ⟨u, w2⟩ := r3
      simp only []
      cases h4 : C.projectPartPch w2 with
      | error e => rfl
      | ok r4 =>
        obtain ⟨pch, w3⟩ := r4
        simp only []
        by_cases hp : pch.pchPath = ""
        · simp [hp, Exec.call_apply]
        · simp [hp, Exec.call_apply]

/-- C20: for every queue state and every `ids`, `removePchTasks(ids)` leaves the system
collection as it was, makes no call on either scheduler (no `slotUsage`, no `addTasks`) and
leaves both schedulers as they were. -/
theorem removePchTasks_frame {σ : Type} (projectsPartIds : ProjectPartIds) (q : PchTaskQueue σ) :
    (removePchTasks projectsPartIds q).m_systemPchTasks = q.m_systemPchTasks ∧
      (removePchTasks projectsPartIds q).systemSchedulerCalls = q.systemSchedulerCalls ∧
      (removePchTasks projectsPartIds q).projectSchedulerCalls = q.projectSchedulerCalls ∧
      (removePchTasks projectsPartIds q).m_systemPchTaskScheduler = q.m_systemPchTaskScheduler ∧
      (removePchTasks projectsPartIds q).m_projectPchTaskScheduler =
        q.m_projectPchTaskScheduler :=
  ⟨rfl, rfl, rfl, rfl, rfl⟩

/-- The project step never touches the system collection. -/
theorem processProjectPchTasks_system {σ : Type} (I : TaskSchedulerInterface σ)
    (q q' : PchTaskQueue σ) (h : processProjectPchTasks I q = some q') :
    q'.m_systemPchTasks = q.m_systemPchTasks ∧
      q'.m_systemPchTaskScheduler = q.m_systemPchTaskScheduler := by
  by_cases hu : (I.slotUsage q.m_systemPchTaskScheduler).used = 0
  · obtain ⟨k, -, -, e⟩ := processProjectPchTasks_some I q q' hu h
    rw [e]; exact ⟨rfl, rfl⟩
  · rw [processProjectPchTasks_blocked I q hu] at h
    cases h
    exact ⟨rfl, rfl⟩

/-- The project collection after the project step is a prefix of the one before. -/
theorem processProjectPchTasks_project {σ : Type} (I : TaskSchedulerInterface σ)
    (q q' : PchTaskQueue σ) (h : processProjectPchTasks I q = some q') :
    ∃ k, q'.m_projectPchTasks = q.m_projectPchTasks.take k := by
  by_cases hu : (I.slotUsage q.m_systemPchTaskScheduler).used = 0
  · obtain ⟨k, -, -, e⟩ := processProjectPchTasks_some I q q' hu h
    exact ⟨k, by rw [e]⟩
  · rw [processProjectPchTasks_blocked I q hu] at h
    cases h
    exact ⟨q.m_projectPchTasks.length, (List.take_length _).symm⟩

/-- Both collections after a tick are prefixes of the ones before. -/
theorem processEntries_prefixes {σ : Type} (I : TaskSchedulerInterface σ)
    (q q' : PchTaskQueue σ) (h : processEntries I q = some q') :
    (∃ k, q'.m_systemPchTasks = q.m_systemPchTasks.take k) ∧
      ∃ k, q'.m_projectPchTasks = q.m_projectPchTasks.take k := by
  obtain ⟨q1, h1, h2⟩ := processEntries_eq_some I q q' h
  obtain ⟨k, -, -, e⟩ := processSystemPchTasks_some I q q1 h1
  have e1 : q1.m_systemPchTasks = q.m_systemPchTasks.take k := by rw [e]
  have e2 : q1.m_projectPchTasks = q.m_projectPchTasks := by rw [e]
  obtain ⟨k', hk'⟩ := processProjectPchTasks_project I q1 q' h2
  exact ⟨⟨k, by rw [(processProjectPchTasks_system I q1 q' h2).1, e1]⟩, ⟨k', by rw [hk', e2]⟩⟩

theorem strictAsc_take {ts : PchTasks} (h : StrictAsc ts) (k : Nat) : StrictAsc (ts.take k) :=
  List.Pairwise.sublist (List.take_sublist k ts) h

theorem step_system_strictAsc {σ : Type} (I : TaskSchedulerInterface σ) (finish : σ → Option σ)
    (a : Action) (q q' : PchTaskQueue σ) (h : step I finish a q = some q')
    (hq : StrictAsc q.m_systemPchTasks)
    (ha : ∀ ts, a = Action.addSystemPchTasks ts → StrictAsc ts) :
    StrictAsc q'.m_systemPchTasks := by
  cases a with
  | addSystemPchTasks ts =>
    simp only [step, Option.some.injEq] at h
    rw [← h]
    exact set_union_strictAsc ts q.m_systemPchTasks (ha ts rfl) hq
  | addProjectPchTasks ts =>
    simp only [step, Option.some.injEq] at h
    rw [← h]; exact hq
  | removePchTasks ids =>
    simp only [step, Option.some.injEq] at h
    rw [← h]; exact hq
  | processEntries =>
    obtain ⟨k, hk⟩ := (processEntries_prefixes I q q' h).1
    rw [hk]; exact strictAsc_take hq k
  | systemTaskFinished =>
    simp only [step, Option.map_eq_some'] at h
    obtain ⟨s, -, rfl⟩ := h
    exact hq
  | projectTaskFinished =>
    simp only [step, Option.map_eq_some'] at h
    obtain ⟨s, -, rfl⟩ := h
    exact hq

theorem run_system_strictAsc {σ : Type} (I : TaskSchedulerInterface σ) (finish : σ → Option σ) :
    ∀ (acts : List Action) (q q' : PchTaskQueue σ), run I finish acts q = some q' →
      StrictAsc q.m_systemPchTasks →
      (∀ ts, Action.addSystemPchTasks ts ∈ acts → StrictAsc ts) →
      StrictAsc q'.m_systemPchTasks
  | [], q, q', h, hq, _ => by
    simp only [run, Option.some.injEq] at h
    rw [← h]; exact hq
  | a :: as, q, q', h, hq, hb => by
    simp only [run] at h
    obtain ⟨q1, h1, h2⟩ := Option.bind_eq_some.1 h
    have hq1 := step_system_strictAsc I finish a q q1 h1 hq
      (fun ts e => hb ts (e ▸ List.mem_cons_self _ _))
    exact run_system_strictAsc I finish as q1 q' h2 hq1
      (fun ts hm => hb ts (List.mem_cons_of_mem _ hm))

/-- C18: in every state reached from a queue with an empty system collection by any sequence of
`addSystemPchTasks` (each batch strictly ascending by `projectPartIds`), `addProjectPchTasks`,
`removePchTasks`, `processEntries` and closure completions, whatever the schedulers report, the
system collection is strictly ascending by `projectPartIds`. -/
theorem system_collection_invariant {σ : Type} (I : TaskSchedulerInterface σ)
    (finish : σ → Option σ) (acts : List Action) (q0 q : PchTaskQueue σ)
    (h0 : q0.m_systemPchTasks = [])
    (hb : ∀ ts, Action.addSystemPchTasks ts ∈ acts → StrictAsc ts)
    (hr : run I finish acts q0 = some q) :
    StrictAsc q.m_systemPchTasks :=
  run_system_strictAsc I finish acts q0 q hr (by rw [h0]; exact List.Pairwise.nil) hb



theorem compare_single {a b : PchTask} (ha : a.projectPartIds.length = 1)
    (hb : b.projectPartIds.length = 1) :
    compare a b = true ↔ a.projectPartId < b.projectPartId := by
  obtain ⟨x, hx⟩ := List.length_eq_one.1 ha
  obtain ⟨y, hy⟩ := List.length_eq_one.1 hb
  unfold compare PchTask.projectPartId
  rw [hx, hy]
  simp only [lexicographical_compare, List.headD_cons]
  constructor
  · intro h
    by_contra hlt
    simp [hlt] at h
  · intro h
    simp [h]

theorem strictAsc_iff_byId {ts : PchTasks} (h : SingleId ts) :
    StrictAsc ts ↔ StrictAscById ts := by
  unfold StrictAsc StrictAscById
  exact List.Pairwise.iff_of_mem (fun ha hb => compare_single (h _ ha) (h _ hb))

theorem set_difference_sublist (c₁ : PchTask → ProjectPartId → Bool)
    (c₂ : ProjectPartId → PchTask → Bool) (xs : PchTasks) (ys : ProjectPartIds) :
    (set_difference c₁ c₂ xs ys).Sublist xs := by
  induction xs, ys using set_difference.induct c₁ c₂ with
  | case1 ys => simp [set_difference]
  | case2 x xs => simp [set_difference]
  | case3 x xs y ys h1 ih =>
    rw [set_difference, if_pos h1]
    exact ih.cons₂ x
  | case4 x xs y ys h1 h2 ih =>
    rw [set_difference, if_neg h1, if_pos h2]
    exact ih
  | case5 x xs y ys h1 h2 ih =>
    rw [set_difference, if_neg h1, if_neg h2]
    exact ih.cons x

theorem singleId_sublist {ts us : PchTasks} (h : SingleId ts) (hs : us.Sublist ts) :
    SingleId us := fun t ht => h t (hs.subset ht)

theorem set_union_byId (xs ys : PchTasks) (hx : StrictAscById xs) (hy : StrictAscById ys)
    (sx : SingleId xs) (sy : SingleId ys) :
    StrictAscById (set_union compare xs ys) ∧ SingleId (set_union compare xs ys) := by
  have hs : SingleId (set_union compare xs ys) := by
    intro t ht
    rcases set_union_subset compare xs ys t ht with h | h
    · exact sx t h
    · exact sy t h
  exact ⟨(strictAsc_iff_byId hs).1
    (set_union_strictAsc xs ys ((strictAsc_iff_byId sx).2 hx) ((strictAsc_iff_byId sy).2 hy)), hs⟩

theorem step_project_byId {σ : Type} (I : TaskSchedulerInterface σ) (finish : σ → Option σ)
    (a : Action) (q q' : PchTaskQueue σ) (h : step I finish a q = some q')
    (hq : StrictAscById q.m_projectPchTasks ∧ SingleId q.m_projectPchTasks)
    (ha : ∀ ts, a = Action.addProjectPchTasks ts → StrictAscById ts ∧ SingleId ts) :
    StrictAscById q'.m_projectPchTasks ∧ SingleId q'.m_projectPchTasks := by
  cases a with
  | addSystemPchTasks ts =>
    simp only [step, Option.some.injEq] at h
    rw [← h]; exact hq
  | addProjectPchTasks ts =>
    simp only [step, Option.some.injEq] at h
    rw [← h]
    exact set_union_byId ts q.m_projectPchTasks (ha ts rfl).1 hq.1 (ha ts rfl).2 hq.2
  | removePchTasks ids =>
    simp only [step, Option.some.injEq] at h
    rw [← h]
    have hs := set_difference_sublist CompareDifference.taskId CompareDifference.idTask
      q.m_projectPchTasks ids
    exact ⟨List.Pairwise.sublist hs hq.1, singleId_sublist hq.2 hs⟩
  | processEntries =>
    obtain ⟨k, hk⟩ := (processEntries_prefixes I q q' h).2
    rw [hk]
    exact ⟨List.Pairwise.sublist (List.take_sublist k _) hq.1,
      singleId_sublist hq.2 (List.take_sublist k _)⟩
  | systemTaskFinished =>
    simp only [step, Option.map_eq_some'] at h
    obtain ⟨s, -, rfl⟩ := h
    exact hq
  | projectTaskFinished =>
    simp only [step, Option.map_eq_some'] at h
    obtain ⟨s, -, rfl⟩ := h
    exact hq

theorem run_project_byId {σ : Type} (I : TaskSchedulerInterface σ) (finish : σ → Option σ) :
    ∀ (acts : List Action) (q q' : PchTaskQueue σ), run I finish acts q = some q' →
      StrictAscById q.m_projectPchTasks ∧ SingleId q.m_projectPchTasks →
      (∀ ts, Action.addProjectPchTasks ts ∈ acts → StrictAscById ts ∧ SingleId ts) →
      StrictAscById q'.m_projectPchTasks ∧ SingleId q'.m_projectPchTasks
  | [], q, q', h, hq, _ => by
    simp only [run, Option.some.injEq] at h
    rw [← h]; exact hq
  | a :: as, q, q', h, hq, hb => by
    simp only [run] at h
    obtain ⟨q1, h1, h2⟩ := Option.bind_eq_some.1 h
    have hq1 := step_project_byId I finish a q q1 h1 hq
      (fun ts e => hb ts (e ▸ List.mem_cons_self _ _))
    exact run_project_byId I finish as q1 q' h2 hq1
      (fun ts hm => hb ts (List.mem_cons_of_mem _ hm))

/-- C19, amended: in every state reached from a queue with an empty project collection by
`addProjectPchTasks` (each batch strictly ascending by `projectPartId()` and made of tasks whose
`projectPartIds` has exactly one element), `removePchTasks` and `processEntries` (and the other
steps), the project collection is strictly ascending by `projectPartId()`, holds no two tasks
with the same `projectPartId()`, and is made of one-element tasks. -/
theorem project_collection_invariant {σ : Type} (I : TaskSchedulerInterface σ)
    (finish : σ → Option σ) (acts : List Action) (q0 q : PchTaskQueue σ)
    (h0 : q0.m_projectPchTasks = [])
    (hb : ∀ ts, Action.addProjectPchTasks ts ∈ acts → StrictAscById ts ∧ SingleId ts)
    (hr : run I finish acts q0 = some q) :
    StrictAscById q.m_projectPchTasks ∧
      (q.m_projectPchTasks.map PchTask.projectPartId).Nodup ∧
      SingleId q.m_projectPchTasks := by
  have h := run_project_byId I finish acts q0 q hr
    (by rw [h0]; exact ⟨List.Pairwise.nil, fun t ht => absurd ht (List.not_mem_nil t)⟩) hb
  refine ⟨h.1, ?_, h.2⟩
  unfold List.Nodup
  rw [List.pairwise_map]
  exact h.1.imp (fun hlt => ne_of_lt hlt)


/-! ## Traces -/

theorem run_of_step {σ : Type} {I : TaskSchedulerInterface σ} {finish : σ → Option σ}
    {a : Action} {q q1 : PchTaskQueue σ} (h : step I finish a q = some q1) (as : List Action) :
    run I finish (a :: as) q = run I finish as q1 := by
  show (step I finish a q).bind (run I finish as) = _
  rw [h, Option.some_bind]

theorem addPchTasks_nil (ts : PchTasks) (pc : ProgressCounter) :
    addPchTasks ts [] pc =
      (ts, pc ++ [ProgressCall.addTotal (intCast (sizeSub ts.length 0))]) := by
  unfold addPchTasks
  simp only [set_union_nil_right, List.length_nil]

theorem system_collection_invariant_witness :
    StrictAsc [PchTask.mk "" [1] [1] "" "", PchTask.mk "" [2] [1] "" ""] := by
  have s1 : step countingScheduler finishOne
      (Action.addSystemPchTasks [PchTask.mk "" [1] [1] "" "", PchTask.mk "" [3] [1] "" "old"])
      (queueOf [] [] (SlotUsage.mk 1 0) (SlotUsage.mk 0 0)) =
      some (PchTaskQueue.mk [PchTask.mk "" [1] [1] "" "", PchTask.mk "" [3] [1] "" "old"] []
        (SlotUsage.mk 1 0) (SlotUsage.mk 0 0) [ProgressCall.addTotal 2] [] []) := by
    simp only [step, addSystemPchTasks, queueOf, addPchTasks_nil]
    rfl
  have s2 : step countingScheduler finishOne
      (Action.addSystemPchTasks [PchTask.mk "" [2] [1] "" "", PchTask.mk "" [3] [1] "" "new"])
      (PchTaskQueue.mk [PchTask.mk "" [1] [1] "" "", PchTask.mk "" [3] [1] "" "old"] []
        (SlotUsage.mk 1 0) (SlotUsage.mk 0 0) [ProgressCall.addTotal 2] [] []) =
      some (PchTaskQueue.mk
        [PchTask.mk "" [1] [1] "" "", PchTask.mk "" [2] [1] "" "", PchTask.mk "" [3] [1] "" "new"]
        [] (SlotUsage.mk 1 0) (SlotUsage.mk 0 0)
        [ProgressCall.addTotal 2, ProgressCall.addTotal 1] [] []) := by
    simp [step, addSystemPchTasks, addPchTasks, set_union, compare, lexicographical_compare]
    decide
  have s3 : step countingScheduler finishOne Action.processEntries
      (PchTaskQueue.mk
        [PchTask.mk "" [1] [1] "" "", PchTask.mk "" [2] [1] "" "", PchTask.mk "" [3] [1] "" "new"]
        [] (SlotUsage.mk 1 0) (SlotUsage.mk 0 0)
        [ProgressCall.addTotal 2, ProgressCall.addTotal 1] [] []) =
      some (PchTaskQueue.mk [PchTask.mk "" [1] [1] "" "", PchTask.mk "" [2] [1] "" ""] []
        (SlotUsage.mk 0 1) (SlotUsage.mk 0 0)
        [ProgressCall.addTotal 2, ProgressCall.addTotal 1]
        [SchedulerCall.slotUsage,
          SchedulerCall.addTasks [Task.system (PchTask.mk "" [3] [1] "" "new")],
          SchedulerCall.slotUsage] []) := rfl
  exact system_collection_invariant countingScheduler finishOne
    [Action.addSystemPchTasks [PchTask.mk "" [1] [1] "" "", PchTask.mk "" [3] [1] "" "old"],
      Action.addSystemPchTasks [PchTask.mk "" [2] [1] "" "", PchTask.mk "" [3] [1] "" "new"],
      Action.processEntries]
    (queueOf [] [] (SlotUsage.mk 1 0) (SlotUsage.mk 0 0))
    (PchTaskQueue.mk [PchTask.mk "" [1] [1] "" "", PchTask.mk "" [2] [1] "" ""] []
      (SlotUsage.mk 0 1) (SlotUsage.mk 0 0)
      [ProgressCall.addTotal 2, ProgressCall.addTotal 1]
      [SchedulerCall.slotUsage,
        SchedulerCall.addTasks [Task.system (PchTask.mk "" [3] [1] "" "new")],
        SchedulerCall.slotUsage] [])
    rfl
    (by
      intro ts hts
      simp only [List.mem_cons, Action.addSystemPchTasks.injEq, List.mem_singleton,
        reduceCtorEq, or_false, List.not_mem_nil] at hts
      rcases hts with rfl | rfl <;> decide)
    (by rw [run_of_step s1, run_of_step s2, run_of_step s3]; rfl)


/-- C19, as stated, fails: two batches of one task each, with the non-empty keys `[5, 1]` and
`[5, 2]` (each batch sorted and duplicate-free by `projectPartId()`), merged one after the other
into an empty queue leave both tasks in the project collection, two tasks with
`projectPartId() = 5`: the merge orders by the whole `projectPartIds`. -/
theorem project_collection_same_id_twice :
    StrictAscById [PchTask.mk "" [5, 1] [1] "" ""] ∧
      NonEmptyIds [PchTask.mk "" [5, 1] [1] "" ""] ∧
      StrictAscById [PchTask.mk "" [5, 2] [1] "" ""] ∧
      NonEmptyIds [PchTask.mk "" [5, 2] [1] "" ""] ∧
      (run countingScheduler finishOne
          [Action.addProjectPchTasks [PchTask.mk "" [5, 1] [1] "" ""],
            Action.addProjectPchTasks [PchTask.mk "" [5, 2] [1] "" ""]]
          (queueOf [] [] (SlotUsage.mk 0 0) (SlotUsage.mk 0 0))).map
        (fun q => q.m_projectPchTasks) =
        some [PchTask.mk "" [5, 1] [1] "" "", PchTask.mk "" [5, 2] [1] "" ""] ∧
      ¬ StrictAscById [PchTask.mk "" [5, 1] [1] "" "", PchTask.mk "" [5, 2] [1] "" ""] ∧
      ¬ ([PchTask.mk "" [5, 1] [1] "" "", PchTask.mk "" [5, 2] [1] "" ""].map
        PchTask.projectPartId).Nodup := by
  have s1 : step countingScheduler finishOne
      (Action.addProjectPchTasks [PchTask.mk "" [5, 1] [1] "" ""])
      (queueOf [] [] (SlotUsage.mk 0 0) (SlotUsage.mk 0 0)) =
      some (PchTaskQueue.mk [] [PchTask.mk "" [5, 1] [1] "" ""] (SlotUsage.mk 0 0)
        (SlotUsage.mk 0 0) [ProgressCall.addTotal 1] [] []) := by
    simp only [step, addProjectPchTasks, queueOf, addPchTasks_nil]
    rfl
  have s2 : step countingScheduler finishOne
      (Action.addProjectPchTasks [PchTask.mk "" [5, 2] [1] "" ""])
      (PchTaskQueue.mk [] [PchTask.mk "" [5, 1] [1] "" ""] (SlotUsage.mk 0 0)
        (SlotUsage.mk 0 0) [ProgressCall.addTotal 1] [] []) =
      some (PchTaskQueue.mk []
        [PchTask.mk "" [5, 1] [1] "" "", PchTask.mk "" [5, 2] [1] "" ""] (SlotUsage.mk 0 0)
        (SlotUsage.mk 0 0) [ProgressCall.addTotal 1, ProgressCall.addTotal 1] [] []) := by
    simp [step, addProjectPchTasks, addPchTasks, set_union, compare, lexicographical_compare]
    decide
  refine ⟨by decide, by simp [NonEmptyIds], by decide, by simp [NonEmptyIds], ?_, by decide,
    by decide⟩
  rw [run_of_step s1, run_of_step s2]
  rfl

theorem project_collection_invariant_witness :
    StrictAscById [PchTask.mk "" [3] [1] "" "", PchTask.mk "" [7] [1] "" ""] ∧
      ([PchTask.mk "" [3] [1] "" "", PchTask.mk "" [7] [1] "" ""].map
        PchTask.projectPartId).Nodup ∧
      SingleId [PchTask.mk "" [3] [1] "" "", PchTask.mk "" [7] [1] "" ""] := by
  have s1 : step countingScheduler finishOne
      (Action.addProjectPchTasks [PchTask.mk "" [3] [1] "" "", PchTask.mk "" [5] [1] "" "",
        PchTask.mk "" [7] [1] "" ""])
      (queueOf [] [] (SlotUsage.mk 0 0) (SlotUsage.mk 0 0)) =
      some (PchTaskQueue.mk []
        [PchTask.mk "" [3] [1] "" "", PchTask.mk "" [5] [1] "" "", PchTask.mk "" [7] [1] "" ""]
        (SlotUsage.mk 0 0) (SlotUsage.mk 0 0) [ProgressCall.addTotal 3] [] []) := by
    simp only [step, addProjectPchTasks, queueOf, addPchTasks_nil]
    rfl
  have s2 : step countingScheduler finishOne (Action.removePchTasks [5])
      (PchTaskQueue.mk []
        [PchTask.mk "" [3] [1] "" "", PchTask.mk "" [5] [1] "" "", PchTask.mk "" [7] [1] "" ""]
        (SlotUsage.mk 0 0) (SlotUsage.mk 0 0) [ProgressCall.addTotal 3] [] []) =
      some (PchTaskQueue.mk []
        [PchTask.mk "" [3] [1] "" "", PchTask.mk "" [7] [1] "" ""]
        (SlotUsage.mk 0 0) (SlotUsage.mk 0 0)
        [ProgressCall.addTotal 3, ProgressCall.removeTotal 1] [] []) := by
    simp [step, removePchTasks, removePchTasksByProjectPartId, set_difference,
      CompareDifference.taskId, CompareDifference.idTask, PchTask.projectPartId]
    decide
  exact project_collection_invariant countingScheduler finishOne
    [Action.addProjectPchTasks [PchTask.mk "" [3] [1] "" "", PchTask.mk "" [5] [1] "" "",
        PchTask.mk "" [7] [1] "" ""],
      Action.removePchTasks [5]]
    (queueOf [] [] (SlotUsage.mk 0 0) (SlotUsage.mk 0 0))
    (PchTaskQueue.mk []
      [PchTask.mk "" [3] [1] "" "", PchTask.mk "" [7] [1] "" ""]
      (SlotUsage.mk 0 0) (SlotUsage.mk 0 0)
      [ProgressCall.addTotal 3, ProgressCall.removeTotal 1] [] [])
    rfl
    (by
      intro ts hts
      simp only [List.mem_cons, Action.addProjectPchTasks.injEq, List.mem_singleton,
        reduceCtorEq, or_false, List.not_mem_nil] at hts
      subst hts
      exact ⟨by decide, by simp [SingleId]⟩)
    (by rw [run_of_step s1, run_of_step s2]; rfl)

/-- C11, as stated, fails: from the idle state with one free slot per scheduler, adding a
project task, `processEntries`, adding a system task, `processEntries` (no completion in between)
reaches a state in which both schedulers have `used = 1`: the system step admits whatever the
project scheduler is doing. -/
theorem both_schedulers_busy :
    (run countingScheduler finishOne
        [Action.addProjectPchTasks [PchTask.mk "" [5] [1] "" ""], Action.processEntries,
          Action.addSystemPchTasks [PchTask.mk "" [1, 2] [1] "" ""], Action.processEntries]
        (queueOf [] [] (SlotUsage.mk 1 0) (SlotUsage.mk 1 0))).map
      (fun q => (q.m_systemPchTaskScheduler.used, q.m_projectPchTaskScheduler.used)) =
      some (1, 1) := by
  have s1 : step countingScheduler finishOne
      (Action.addProjectPchTasks [PchTask.mk "" [5] [1] "" ""])
      (queueOf [] [] (SlotUsage.mk 1 0) (SlotUsage.mk 1 0)) =
      some (PchTaskQueue.mk [] [PchTask.mk "" [5] [1] "" ""] (SlotUsage.mk 1 0) (SlotUsage.mk 1 0)
        [ProgressCall.addTotal 1] [] []) := by
    simp only [step, addProjectPchTasks, queueOf, addPchTasks_nil]
    rfl
  have s2 : step countingScheduler finishOne Action.processEntries
      (PchTaskQueue.mk [] [PchTask.mk "" [5] [1] "" ""] (SlotUsage.mk 1 0) (SlotUsage.mk 1 0)
        [ProgressCall.addTotal 1] [] []) =
      some (PchTaskQueue.mk [] [] (SlotUsage.mk 1 0) (SlotUsage.mk 0 1)
        [ProgressCall.addTotal 1]
        [SchedulerCall.slotUsage, SchedulerCall.addTasks [], SchedulerCall.slotUsage]
        [SchedulerCall.slotUsage,
          SchedulerCall.addTasks [Task.project (PchTask.mk "" [5] [1] "" "")]]) := rfl
  have s3 : step countingScheduler finishOne
      (Action.addSystemPchTasks [PchTask.mk "" [1, 2] [1] "" ""])
      (PchTaskQueue.mk [] [] (SlotUsage.mk 1 0) (SlotUsage.mk 0 1)
        [ProgressCall.addTotal 1]
        [SchedulerCall.slotUsage, SchedulerCall.addTasks [], SchedulerCall.slotUsage]
        [SchedulerCall.slotUsage,
          SchedulerCall.addTasks [Task.project (PchTask.mk "" [5] [1] "" "")]]) =
      some (PchTaskQueue.mk [PchTask.mk "" [1, 2] [1] "" ""] [] (SlotUsage.mk 1 0)
        (SlotUsage.mk 0 1) [ProgressCall.addTotal 1, ProgressCall.addTotal 1]
        [SchedulerCall.slotUsage, SchedulerCall.addTasks [], SchedulerCall.slotUsage]
        [SchedulerCall.slotUsage,
          SchedulerCall.addTasks [Task.project (PchTask.mk "" [5] [1] "" "")]]) := by
    simp only [step, addSystemPchTasks, addPchTasks_nil]
    rfl
  rw [run_of_step s1, run_of_step s2, run_of_step s3]
  rfl

/-- C11, amended: with schedulers whose `used` count rises by the number of closures handed to
`addTasks`, in every state a `processEntries` step raises the project scheduler's `used` count
only if the system scheduler's `used` count is 0 before the step and 0 after it, and then the
step admits no system task: project closures are never started while a system closure is in
flight. (The converse does not hold: system closures are started while project closures are in
flight.) -/
theorem project_admission_needs_idle_system {σ : Type} (I : TaskSchedulerInterface σ)
    (hI : ∀ (s : σ) (tasks : List Task),
      (I.slotUsage (I.addTasks tasks s)).used = (I.slotUsage s).used + tasks.length)
    (q q' : PchTaskQueue σ) (h : processEntries I q = some q')
    (hrise : (I.slotUsage q.m_projectPchTaskScheduler).used <
      (I.slotUsage q'.m_projectPchTaskScheduler).used) :
    (I.slotUsage q.m_systemPchTaskScheduler).used = 0 ∧
      (I.slotUsage q'.m_systemPchTaskScheduler).used = 0 ∧
      q'.m_systemPchTasks = q.m_systemPchTasks := by
  obtain ⟨q1, h1, h2⟩ := processEntries_eq_some I q q' h
  obtain ⟨k, hk, -, e⟩ := processSystemPchTasks_some I q q1 h1
  have e1 : q1.m_systemPchTaskScheduler =
      I.addTasks (createSystemTasks (q.m_systemPchTasks.drop k)) q.m_systemPchTaskScheduler := by
    rw [e]
  have e2 : q1.m_systemPchTasks = q.m_systemPchTasks.take k := by rw [e]
  have e3 : q1.m_projectPchTaskScheduler = q.m_projectPchTaskScheduler := by rw [e]
  obtain ⟨f1, f2⟩ := processProjectPchTasks_system I q1 q' h2
  by_cases hu : (I.slotUsage q1.m_systemPchTaskScheduler).used = 0
  · have hu' := hu
    rw [e1, hI, length_createSystemTasks, List.length_drop] at hu'
    refine ⟨by omega, by rw [f2]; exact hu, ?_⟩
    rw [f1, e2, List.take_of_length_le (by omega)]
  · exfalso
    rw [processProjectPchTasks_blocked I q1 hu] at h2
    cases h2
    rw [show ({ q1 with systemSchedulerCalls :=
      q1.systemSchedulerCalls ++ [SchedulerCall.slotUsage] } : PchTaskQueue σ).m_projectPchTaskScheduler
      = q1.m_projectPchTaskScheduler from rfl, e3] at hrise
    exact Nat.lt_irrefl _ hrise

theorem project_admission_needs_idle_system_witness :
    processEntries countingScheduler
        (PchTaskQueue.mk [] [PchTask.mk "" [5] [1] "" ""] (SlotUsage.mk 1 0) (SlotUsage.mk 1 0)
          [] [] []) =
      some (PchTaskQueue.mk [] [] (SlotUsage.mk 1 0) (SlotUsage.mk 0 1) []
        [SchedulerCall.slotUsage, SchedulerCall.addTasks [], SchedulerCall.slotUsage]
        [SchedulerCall.slotUsage,
          SchedulerCall.addTasks [Task.project (PchTask.mk "" [5] [1] "" "")]]) ∧
      ((countingScheduler.slotUsage (SlotUsage.mk 1 0)).used = 0 ∧
        (countingScheduler.slotUsage (SlotUsage.mk 1 0)).used = 0 ∧
        ([] : PchTasks) = []) :=
  ⟨rfl, project_admission_needs_idle_system countingScheduler (fun _ _ => rfl)
    (PchTaskQueue.mk [] [PchTask.mk "" [5] [1] "" ""] (SlotUsage.mk 1 0) (SlotUsage.mk 1 0)
      [] [] [])
    (PchTaskQueue.mk [] [] (SlotUsage.mk 1 0) (SlotUsage.mk 0 1) []
      [SchedulerCall.slotUsage, SchedulerCall.addTasks [], SchedulerCall.slotUsage]
      [SchedulerCall.slotUsage,
        SchedulerCall.addTasks [Task.project (PchTask.mk "" [5] [1] "" "")]])
    rfl (by decide)⟩


/-! ## Frames, progress deltas and failures -/

/-- C21: for every queue state and every batch, `addSystemPchTasks` leaves the project
collection, both schedulers and both schedulers' call logs as they were, and
`addProjectPchTasks` leaves the system collection, both schedulers and both call logs as they
were: each changes only its own collection and the progress counter and submits nothing. -/
theorem addPchTasks_frame {σ : Type} (pchTasks : PchTasks) (q : PchTaskQueue σ) :
    ((addSystemPchTasks pchTasks q).m_projectPchTasks = q.m_projectPchTasks ∧
      (addSystemPchTasks pchTasks q).m_systemPchTaskScheduler = q.m_systemPchTaskScheduler ∧
      (addSystemPchTasks pchTasks q).m_projectPchTaskScheduler = q.m_projectPchTaskScheduler ∧
      (addSystemPchTasks pchTasks q).systemSchedulerCalls = q.systemSchedulerCalls ∧
      (addSystemPchTasks pchTasks q).projectSchedulerCalls = q.projectSchedulerCalls) ∧
    ((addProjectPchTasks pchTasks q).m_systemPchTasks = q.m_systemPchTasks ∧
      (addProjectPchTasks pchTasks q).m_systemPchTaskScheduler = q.m_systemPchTaskScheduler ∧
      (addProjectPchTasks pchTasks q).m_projectPchTaskScheduler = q.m_projectPchTaskScheduler ∧
      (addProjectPchTasks pchTasks q).systemSchedulerCalls = q.systemSchedulerCalls ∧
      (addProjectPchTasks pchTasks q).projectSchedulerCalls = q.projectSchedulerCalls) :=
  ⟨⟨rfl, rfl, rfl, rfl, rfl⟩, ⟨rfl, rfl, rfl, rfl, rfl⟩⟩

/-- C23: for a task with non-empty `includes`, a failing collaborator call ends the closure
with exactly that failure and the failing call is the last call made, once. For a project
closure (the task has a `projectPartId()`, its `projectPartIds` being non-empty): a failed fetch
is the only call (no `generatePch`); a failed environment query follows the fetch only; a failed
`generatePch` follows the two fetches and no `projectPartPch`, insert or delete follows it. The
same holds for a system closure (environment query, then `generatePch`). -/
theorem failure_propagation {ε ω : Type} (C : Collaborators ε ω) (pchTask : PchTask) (w : ω)
    (h : pchTask.includes ≠ []) :
    (pchTask.projectPartIds ≠ [] →
      (∀ e, C.fetchSystemPrecompiledHeaderPath pchTask.projectPartId w = Except.error e →
        Task.invoke C (Task.project pchTask) w =
          ⟨[CollaboratorCall.fetchSystemPrecompiledHeaderPath pchTask.projectPartId],
            Except.error e⟩) ∧
      (∀ e systemPchPath w1,
        C.fetchSystemPrecompiledHeaderPath pchTask.projectPartId w =
          Except.ok (systemPchPath, w1) →
        C.preIncludeSearchPath w1 = Except.error e →
        Task.invoke C (Task.project pchTask) w =
          ⟨[CollaboratorCall.fetchSystemPrecompiledHeaderPath pchTask.projectPartId,
              CollaboratorCall.preIncludeSearchPath], Except.error e⟩) ∧
      (∀ e systemPchPath w1 preIncludeSearchPath w2,
        C.fetchSystemPrecompiledHeaderPath pchTask.projectPartId w =
          Except.ok (systemPchPath, w1) →
        C.preIncludeSearchPath w1 = Except.ok (preIncludeSearchPath, w2) →
        C.generatePch (PchTask.mk systemPchPath pchTask.projectPartIds pchTask.includes
          preIncludeSearchPath pchTask.rest) w2 = Except.error e →
        Task.invoke C (Task.project pchTask) w =
          ⟨[CollaboratorCall.fetchSystemPrecompiledHeaderPath pchTask.projectPartId,
              CollaboratorCall.preIncludeSearchPath,
              CollaboratorCall.generatePch (PchTask.mk systemPchPath pchTask.projectPartIds
                pchTask.includes preIncludeSearchPath pchTask.rest)], Except.error e⟩)) ∧
    (∀ e, C.preIncludeSearchPath w = Except.error e →
      Task.invoke C (Task.system pchTask) w =
        ⟨[CollaboratorCall.preIncludeSearchPath], Except.error e⟩) ∧
    (∀ e preIncludeSearchPath w1,
      C.preIncludeSearchPath w = Except.ok (preIncludeSearchPath, w1) →
      C.generatePch (PchTask.mk pchTask.systemPchPath pchTask.projectPartIds pchTask.includes
        preIncludeSearchPath pchTask.rest) w1 = Except.error e →
      Task.invoke C (Task.system pchTask) w =
        ⟨[CollaboratorCall.preIncludeSearchPath,
            CollaboratorCall.generatePch (PchTask.mk pchTask.systemPchPath
              pchTask.projectPartIds pchTask.includes preIncludeSearchPath pchTask.rest)],
          Except.error e⟩) := by
  refine ⟨fun _ => ⟨?_, ?_, ?_⟩, ?_, ?_⟩
  · intro e h1
    rw [invoke_project_nonempty C pchTask w h, h1]
  · intro e p w1 h1 h2
    rw [invoke_project_nonempty C pchTask w h, h1]
    simp only [h2]
  · intro e p w1 s w2 h1 h2 h3
    rw [invoke_project_nonempty C pchTask w h, h1]
    simp only [h2, h3]
  · intro e h1
    rw [invoke_system_nonempty C pchTask w h, h1]
  · intro e s w1 h1 h2
    rw [invoke_system_nonempty C pchTask w h, h1]
    simp only [h2]

theorem failure_propagation_witness :
    Task.invoke (failingCollaborators false false true)
        (Task.project (PchTask.mk "" [5] [11] "" "x")) (ProjectPartPch.mk "out.pch" 7) =
      ⟨[CollaboratorCall.fetchSystemPrecompiledHeaderPath 5,
          CollaboratorCall.preIncludeSearchPath,
          CollaboratorCall.generatePch (PchTask.mk "system.pch" [5] [11] "/pre" "x")],
        Except.error "generatePch"⟩ ∧
      Task.invoke (failingCollaborators false true false)
        (Task.system (PchTask.mk "" [1, 2] [11] "" "x")) (ProjectPartPch.mk "out.pch" 7) =
      ⟨[CollaboratorCall.preIncludeSearchPath], Except.error "preIncludeSearchPath"⟩ :=
  ⟨((failure_propagation (failingCollaborators false false true)
      (PchTask.mk "" [5] [11] "" "x") (ProjectPartPch.mk "out.pch" 7) (by decide)).1
      (by decide)).2.2
      "generatePch" "system.pch" (ProjectPartPch.mk "out.pch" 7) "/pre"
      (ProjectPartPch.mk "out.pch" 7) rfl rfl rfl,
    (failure_propagation (failingCollaborators false true false)
      (PchTask.mk "" [1, 2] [11] "" "x") (ProjectPartPch.mk "out.pch" 7) (by decide)).2.1
      "preIncludeSearchPath" rfl⟩

/-- C25: whenever `processEntries` is carried out, for any queue state and any scheduler, the
progress counter has received no call (its call log is the one before), so the progress total
is as it was. -/
theorem processEntries_progress_untouched {σ : Type} (I : TaskSchedulerInterface σ)
    (q q' : PchTaskQueue σ) (h : processEntries I q = some q') :
    q'.m_progressCounter = q.m_progressCounter ∧
      progressTotal q'.m_progressCounter = progressTotal q.m_progressCounter := by
  obtain ⟨q1, h1, h2⟩ := processEntries_eq_some I q q' h
  obtain ⟨k, -, -, e⟩ := processSystemPchTasks_some I q q1 h1
  have e1 : q1.m_progressCounter = q.m_progressCounter := by rw [e]
  have e2 : q'.m_progressCounter = q1.m_progressCounter := by
    by_cases hu : (I.slotUsage q1.m_systemPchTaskScheduler).used = 0
    · obtain ⟨k', -, -, e'⟩ := processProjectPchTasks_some I q1 q' hu h2
      rw [e']
    · rw [processProjectPchTasks_blocked I q1 hu] at h2
      cases h2
      rfl
  rw [e2, e1]
  exact ⟨rfl, rfl⟩

theorem processEntries_progress_untouched_witness :
    ([ProgressCall.addTotal 2] : ProgressCounter) = [ProgressCall.addTotal 2] ∧
      progressTotal [ProgressCall.addTotal 2] = progressTotal [ProgressCall.addTotal 2] :=
  processEntries_progress_untouched countingScheduler
    (PchTaskQueue.mk [PchTask.mk "" [1, 2] [1] "" ""] [PchTask.mk "" [5] [1] "" ""]
      (SlotUsage.mk 1 0) (SlotUsage.mk 1 0) [ProgressCall.addTotal 2] [] [])
    (PchTaskQueue.mk [] [PchTask.mk "" [5] [1] "" ""]
      (SlotUsage.mk 0 1) (SlotUsage.mk 1 0) [ProgressCall.addTotal 2]
      [SchedulerCall.slotUsage,
        SchedulerCall.addTasks [Task.system (PchTask.mk "" [1, 2] [1] "" "")],
        SchedulerCall.slotUsage] [])
    rfl

/-- C27: for a collection of size `S < 2^31` and a reported free count `F < 2^31`, the count
`N = min<int>(int(F), int(S))` satisfies `0 ≤ N ≤ S`, `std::prev(end, N)` is the index `S - N`
inside the collection, and both process steps are defined and split the collection there;
with `F = 0` or `S = 0` the count is 0, the batch handed to `addTasks` is empty and the
collection is unchanged. -/
theorem tail_range_in_bounds {σ : Type} (I : TaskSchedulerInterface σ) (q : PchTaskQueue σ)
    (F S : Nat) (hF : F < 2 ^ 31) (hS : S < 2 ^ 31) :
    (0 ≤ min (intCast F) (intCast S) ∧ min (intCast F) (intCast S) ≤ (S : Int) ∧
      prevEnd S (min (intCast F) (intCast S)) = some (S - min F S) ∧
      (F = 0 ∨ S = 0 → min (intCast F) (intCast S) = 0)) ∧
    ((I.slotUsage q.m_systemPchTaskScheduler).free = F → q.m_systemPchTasks.length = S →
      ∃ q', processSystemPchTasks I q = some q' ∧
        q'.m_systemPchTasks ++ q.m_systemPchTasks.drop (S - min F S) = q.m_systemPchTasks ∧
        (F = 0 ∨ S = 0 →
          q'.m_systemPchTasks = q.m_systemPchTasks ∧
          q'.systemSchedulerCalls = q.systemSchedulerCalls ++
            [SchedulerCall.slotUsage, SchedulerCall.addTasks []])) ∧
    ((I.slotUsage q.m_systemPchTaskScheduler).used = 0 →
      (I.slotUsage q.m_projectPchTaskScheduler).free = F → q.m_projectPchTasks.length = S →
      ∃ q', processProjectPchTasks I q = some q' ∧
        q'.m_projectPchTasks ++ q.m_projectPchTasks.drop (S - min F S) = q.m_projectPchTasks ∧
        (F = 0 ∨ S = 0 →
          q'.m_projectPchTasks = q.m_projectPchTasks ∧
          q'.projectSchedulerCalls = q.projectSchedulerCalls ++
            [SchedulerCall.slotUsage, SchedulerCall.addTasks []])) := by
  have hz : F = 0 ∨ S = 0 → S - min F S = S := by
    rintro (h | h) <;> simp [h]
  refine ⟨⟨?_, ?_, prevEnd_of_lt hF hS, ?_⟩, ?_, ?_⟩
  · rw [min_intCast hF hS]; omega
  · rw [min_intCast hF hS]; omega
  · intro h0
    rw [min_intCast hF hS]
    rcases h0 with h | h <;> simp [h]
  · intro hf hs
    refine ⟨_, processSystemPchTasks_of_lt I q (by rw [hf]; exact hF) (by rw [hs]; exact hS),
      ?_, ?_⟩
    · show q.m_systemPchTasks.take _ ++ _ = _
      rw [hf, hs, List.take_append_drop]
    · intro h0
      refine ⟨?_, ?_⟩
      · show q.m_systemPchTasks.take _ = _
        rw [hf, hs, hz h0, ← hs, List.take_length]
      · show q.systemSchedulerCalls ++ _ = _
        rw [hf, hs, hz h0, ← hs, List.drop_length]
        rfl
  · intro hu hf hs
    refine ⟨_, processProjectPchTasks_of_lt I q hu (by rw [hf]; exact hF)
      (by rw [hs]; exact hS), ?_, ?_⟩
    · show q.m_projectPchTasks.take _ ++ _ = _
      rw [hf, hs, List.take_append_drop]
    · intro h0
      refine ⟨?_, ?_⟩
      · show q.m_projectPchTasks.take _ = _
        rw [hf, hs, hz h0, ← hs, List.take_length]
      · show q.projectSchedulerCalls ++ _ = _
        rw [hf, hs, hz h0, ← hs, List.drop_length]
        rfl


theorem tail_range_in_bounds_witness :
    (0 ≤ min (intCast 2) (intCast 3) ∧ min (intCast 2) (intCast 3) ≤ ((3 : Nat) : Int) ∧
      prevEnd 3 (min (intCast 2) (intCast 3)) = some (3 - min 2 3) ∧
      ((2 : Nat) = 0 ∨ (3 : Nat) = 0 → min (intCast 2) (intCast 3) = 0)) ∧
    (∃ q', processSystemPchTasks countingScheduler
          (queueOf
            [PchTask.mk "" [1] [1] "" "", PchTask.mk "" [2] [1] "" "", PchTask.mk "" [3] [1] "" ""]
            [PchTask.mk "" [5] [1] "" "", PchTask.mk "" [6] [1] "" ""]
            (SlotUsage.mk 2 0) (SlotUsage.mk 1 0)) = some q' ∧
        q'.m_systemPchTasks ++ [PchTask.mk "" [2] [1] "" "", PchTask.mk "" [3] [1] "" ""] =
          [PchTask.mk "" [1] [1] "" "", PchTask.mk "" [2] [1] "" "", PchTask.mk "" [3] [1] "" ""] ∧
        ((2 : Nat) = 0 ∨ (3 : Nat) = 0 →
          q'.m_systemPchTasks =
            [PchTask.mk "" [1] [1] "" "", PchTask.mk "" [2] [1] "" "",
              PchTask.mk "" [3] [1] "" ""] ∧
          q'.systemSchedulerCalls = [] ++
            [SchedulerCall.slotUsage, SchedulerCall.addTasks []])) ∧
    (∃ q', processProjectPchTasks countingScheduler
          (queueOf
            [PchTask.mk "" [1] [1] "" "", PchTask.mk "" [2] [1] "" "", PchTask.mk "" [3] [1] "" ""]
            [PchTask.mk "" [5] [1] "" "", PchTask.mk "" [6] [1] "" ""]
            (SlotUsage.mk 2 0) (SlotUsage.mk 1 0)) = some q' ∧
        q'.m_projectPchTasks ++ [PchTask.mk "" [6] [1] "" ""] =
          [PchTask.mk "" [5] [1] "" "", PchTask.mk "" [6] [1] "" ""] ∧
        ((1 : Nat) = 0 ∨ (2 : Nat) = 0 →
          q'.m_projectPchTasks = [PchTask.mk "" [5] [1] "" "", PchTask.mk "" [6] [1] "" ""] ∧
          q'.projectSchedulerCalls = [] ++
            [SchedulerCall.slotUsage, SchedulerCall.addTasks []])) ∧
    (∃ q', processSystemPchTasks countingScheduler
          (queueOf [PchTask.mk "" [1] [1] "" ""] [] (SlotUsage.mk 0 4) (SlotUsage.mk 0 0)) =
          some q' ∧
        q'.m_systemPchTasks ++ [] = [PchTask.mk "" [1] [1] "" ""] ∧
        ((0 : Nat) = 0 ∨ (1 : Nat) = 0 →
          q'.m_systemPchTasks = [PchTask.mk "" [1] [1] "" ""] ∧
          q'.systemSchedulerCalls = [] ++
            [SchedulerCall.slotUsage, SchedulerCall.addTasks []])) :=
  ⟨(tail_range_in_bounds countingScheduler
      (queueOf
        [PchTask.mk "" [1] [1] "" "", PchTask.mk "" [2] [1] "" "", PchTask.mk "" [3] [1] "" ""]
        [PchTask.mk "" [5] [1] "" "", PchTask.mk "" [6] [1] "" ""]
        (SlotUsage.mk 2 0) (SlotUsage.mk 1 0)) 2 3 (by decide) (by decide)).1,
    (tail_range_in_bounds countingScheduler
      (queueOf
        [PchTask.mk "" [1] [1] "" "", PchTask.mk "" [2] [1] "" "", PchTask.mk "" [3] [1] "" ""]
        [PchTask.mk "" [5] [1] "" "", PchTask.mk "" [6] [1] "" ""]
        (SlotUsage.mk 2 0) (SlotUsage.mk 1 0)) 2 3 (by decide) (by decide)).2.1 rfl rfl,
    (tail_range_in_bounds countingScheduler
      (queueOf
        [PchTask.mk "" [1] [1] "" "", PchTask.mk "" [2] [1] "" "", PchTask.mk "" [3] [1] "" ""]
        [PchTask.mk "" [5] [1] "" "", PchTask.mk "" [6] [1] "" ""]
        (SlotUsage.mk 2 0) (SlotUsage.mk 1 0)) 1 2 (by decide) (by decide)).2.2 rfl rfl rfl,
    (tail_range_in_bounds countingScheduler
      (queueOf [PchTask.mk "" [1] [1] "" ""] [] (SlotUsage.mk 0 4) (SlotUsage.mk 0 0))
      0 1 (by decide) (by decide)).2.1 rfl rfl⟩

/-! ## Progress balance and idempotence -/

theorem strictAsc_nodup {ts : PchTasks} (h : StrictAsc ts) : ts.Nodup := by
  unfold StrictAsc at h
  unfold List.Nodup
  refine h.imp ?_
  intro a b hab e
  exact compare_ne hab (by rw [e])

/-- Two strictly ascending collections with the same tasks are the same list. -/
theorem strictAsc_ext {xs ys : PchTasks} (hx : StrictAsc xs) (hy : StrictAsc ys)
    (h : ∀ t, t ∈ xs ↔ t ∈ ys) : xs = ys := by
  have hp : xs.Perm ys := (List.perm_ext_iff_of_nodup (strictAsc_nodup hx) (strictAsc_nodup hy)).2 h
  haveI : IsAntisymm PchTask (fun a b => compare a b = true) :=
    ⟨fun a b hab hba => by rw [compare_asymm hab] at hba; exact absurd hba (by simp)⟩
  exact List.eq_of_perm_of_sorted hp hx hy

/-- C26: for a destination `D` and a batch `T`, both strictly ascending by `projectPartIds`,
merging `T` into the result of merging `T` into `D` returns that result unchanged, and this
second call passes 0 to `addTotal`. -/
theorem addPchTasks_idempotent (T D : PchTasks) (pc pc' : ProgressCounter)
    (hT : StrictAsc T) (hD : StrictAsc D) :
    addPchTasks T (addPchTasks T D pc).1 pc' =
      ((addPchTasks T D pc).1, pc' ++ [ProgressCall.addTotal 0]) := by
  have hR : StrictAsc (set_union compare T D) := set_union_strictAsc T D hT hD
  have e : set_union compare T (set_union compare T D) = set_union compare T D := by
    apply strictAsc_ext (set_union_strictAsc T _ hT hR) hR
    intro t
    rw [mem_set_union T _ hT hR, mem_set_union T D hT hD]
    constructor
    · rintro (h | ⟨h, -⟩)
      · exact Or.inl h
      · exact h
    · rintro (h | ⟨h, hk⟩)
      · exact Or.inl h
      · exact Or.inr ⟨Or.inr ⟨h, hk⟩, hk⟩
  rw [addPchTasks_fst]
  unfold addPchTasks
  simp only [e, sizeSub_self]
  rfl

theorem addPchTasks_idempotent_witness :
    addPchTasks [PchTask.mk "" [1, 2] [7] "" "new", PchTask.mk "" [4] [] "" ""]
        (addPchTasks [PchTask.mk "" [1, 2] [7] "" "new", PchTask.mk "" [4] [] "" ""]
          [PchTask.mk "" [1, 2] [8] "" "old", PchTask.mk "" [3] [9] "" ""] []).1
        [ProgressCall.addTotal 1] =
      ((addPchTasks [PchTask.mk "" [1, 2] [7] "" "new", PchTask.mk "" [4] [] "" ""]
          [PchTask.mk "" [1, 2] [8] "" "old", PchTask.mk "" [3] [9] "" ""] []).1,
        [ProgressCall.addTotal 1] ++ [ProgressCall.addTotal 0]) :=
  addPchTasks_idempotent [PchTask.mk "" [1, 2] [7] "" "new", PchTask.mk "" [4] [] "" ""]
    [PchTask.mk "" [1, 2] [8] "" "old", PchTask.mk "" [3] [9] "" ""] []
    [ProgressCall.addTotal 1] (by decide) (by decide)


end ClangBackEnd

/-! # States editor view: theorems -/

namespace QmlDesigner

/-- Whatever the body does, a guarded operation entered with the flag clear leaves it clear
once the guard exists, and one entered with the flag set returns at once with the view as it
was. -/
theorem withBlock_spec {μ : Type} (body : Op (StatesEditorView μ) Unit) (m : μ) :
    (withBlock (Except.ok ()) body ⟨false, m⟩).2.m_block = false ∧
      ∀ newInt, withBlock newInt body ⟨true, m⟩ = (Except.ok (), ⟨true, m⟩) := by
  constructor
  · simp only [withBlock]
    rfl
  · intro newInt
    rfl

/-- When the allocation of the guard fails, the body is not run: the operation is left by the
allocation's exception, with the flag set and everything else as it was. -/
theorem withBlock_failed_allocation {μ : Type} (e : Thrown) (body : Op (StatesEditorView μ) Unit)
    (m : μ) : withBlock (Except.error e) body ⟨false, m⟩ = (Except.error e, ⟨true, m⟩) := rfl

/-- The exit paths on which the flag is released: each of `setWhenCondition`,
`resetWhenCondition`, `setStateAsDefault`, `resetDefaultState`, `setAnnotation`,
`removeAnnotation` and `variantPropertiesChanged`, for every behaviour of the functions it
calls (returning or failing with any exception), when the guard's `new int` returns and the
operation is entered with `m_block = false`, is left with `m_block = false`, whether it returns
or an exception escapes its body; and when entered with `m_block = true` it returns at once,
without an exception and with the whole view (flag and model) as it was. -/
theorem block_flag_released {μ : Type} (ops : ModelOps μ) (m : μ) (internalNodeId : Int)
    (condition : String) (propertyList : List VariantProperty)
    (hnew : ops.newInt = Except.ok ()) :
    ((setWhenCondition ops internalNodeId condition ⟨false, m⟩).2.m_block = false ∧
      setWhenCondition ops internalNodeId condition ⟨true, m⟩ = (Except.ok (), ⟨true, m⟩)) ∧
    ((resetWhenCondition ops internalNodeId ⟨false, m⟩).2.m_block = false ∧
      resetWhenCondition ops internalNodeId ⟨true, m⟩ = (Except.ok (), ⟨true, m⟩)) ∧
    ((setStateAsDefault ops internalNodeId ⟨false, m⟩).2.m_block = false ∧
      setStateAsDefault ops internalNodeId ⟨true, m⟩ = (Except.ok (), ⟨true, m⟩)) ∧
    ((resetDefaultState ops ⟨false, m⟩).2.m_block = false ∧
      resetDefaultState ops ⟨true, m⟩ = (Except.ok (), ⟨true, m⟩)) ∧
    (( setAnnotation ops internalNodeId ⟨false, m⟩).2.m_block = false ∧
      setAnnotation ops internalNodeId ⟨true, m⟩ = (Except.ok (), ⟨true, m⟩)) ∧
    (( removeAnnotation ops internalNodeId ⟨false, m⟩).2.m_block = false ∧
      removeAnnotation ops internalNodeId ⟨true, m⟩ = (Except.ok (), ⟨true, m⟩)) ∧
    ((variantPropertiesChanged ops propertyList ⟨false, m⟩).2.m_block = false ∧
      variantPropertiesChanged ops propertyList ⟨true, m⟩ = (Except.ok (), ⟨true, m⟩)) := by
  unfold setWhenCondition resetWhenCondition setStateAsDefault resetDefaultState setAnnotation
    removeAnnotation variantPropertiesChanged
  rw [hnew]
  exact ⟨⟨(withBlock_spec _ m).1, (withBlock_spec _ m).2 _⟩,
    ⟨(withBlock_spec _ m).1, (withBlock_spec _ m).2 _⟩,
    ⟨(withBlock_spec _ m).1, (withBlock_spec _ m).2 _⟩,
    ⟨(withBlock_spec _ m).1, (withBlock_spec _ m).2 _⟩,
    ⟨(withBlock_spec _ m).1, (withBlock_spec _ m).2 _⟩,
    ⟨(withBlock_spec _ m).1, (withBlock_spec _ m).2 _⟩,
    ⟨(withBlock_spec _ m).1, (withBlock_spec _ m).2 _⟩⟩

/-- An exception that escapes the body of `setWhenCondition` (it is not a designer `Exception`,
so the handler does not take it) still leaves the flag clear, after the model was changed. -/
theorem setWhenCondition_escaping_exception :
    setWhenCondition throwingOps 7 "x > 0" ⟨false, 0⟩ = (Except.error Thrown.other, ⟨false, 1⟩) :=
  rfl

/-- The exit path on which the flag is not released, for all seven operations and every
behaviour of the functions they call: when the guard's `new int` fails with `e`, the operation
entered with `m_block = false` is left by `e` with `m_block = true` and the model untouched. -/
theorem block_flag_kept_on_failed_allocation {μ : Type} (ops : ModelOps μ) (e : Thrown) (m : μ)
    (internalNodeId : Int) (condition : String) (propertyList : List VariantProperty)
    (hnew : ops.newInt = Except.error e) :
    setWhenCondition ops internalNodeId condition ⟨false, m⟩ = (Except.error e, ⟨true, m⟩) ∧
    resetWhenCondition ops internalNodeId ⟨false, m⟩ = (Except.error e, ⟨true, m⟩) ∧
    setStateAsDefault ops internalNodeId ⟨false, m⟩ = (Except.error e, ⟨true, m⟩) ∧
    resetDefaultState ops ⟨false, m⟩ = (Except.error e, ⟨true, m⟩) ∧
    setAnnotation ops internalNodeId ⟨false, m⟩ = (Except.error e, ⟨true, m⟩) ∧
    removeAnnotation ops internalNodeId ⟨false, m⟩ = (Except.error e, ⟨true, m⟩) ∧
    variantPropertiesChanged ops propertyList ⟨false, m⟩ = (Except.error e, ⟨true, m⟩) := by
  unfold setWhenCondition resetWhenCondition setStateAsDefault resetDefaultState setAnnotation
    removeAnnotation variantPropertiesChanged
  rw [hnew]
  exact ⟨rfl, rfl, rfl, rfl, rfl, rfl, rfl⟩

/-- C28, at the failing input: `setWhenCondition(7, "x > 0")` is entered with `m_block = false`
and the guard's `new int` throws. The function is left by that exception with `m_block = true`
(the model untouched), where the claim has `m_block = false` on every exit path; from then on
the same call, and `resetWhenCondition(7)`, return at once and leave the flag set. -/
theorem setWhenCondition_flag_kept_set :
    setWhenCondition failedAllocationOps 7 "x > 0" ⟨false, 0⟩ =
        (Except.error Thrown.other, ⟨true, 0⟩) ∧
      setWhenCondition failedAllocationOps 7 "x > 0" ⟨true, 0⟩ = (Except.ok (), ⟨true, 0⟩) ∧
      resetWhenCondition throwingOps 7 ⟨true, 0⟩ = (Except.ok (), ⟨true, 0⟩) :=
  ⟨rfl, rfl, rfl⟩


/-! ## The name search of `addState` -/

theorem digitChar_toNat : ∀ k, k < 10 → (Nat.digitChar k).toNat - 48 = k := by
  decide

theorem foldl_toDigitsCore (fuel : Nat) : ∀ (n : Nat) (ds : List Char), n < fuel →
    (Nat.toDigitsCore 10 fuel n ds).foldl (fun acc c => 10 * acc + (c.toNat - 48)) 0 =
      ds.foldl (fun acc c => 10 * acc + (c.toNat - 48)) n := by
  induction fuel with
  | zero => intro n ds h; omega
  | succ fuel ih =>
    intro n ds h
    simp only [Nat.toDigitsCore]
    by_cases h0 : n / 10 = 0
    · rw [if_pos h0]
      simp only [List.foldl_cons, Nat.mul_zero, Nat.zero_add]
      rw [digitChar_toNat _ (Nat.mod_lt _ (by decide))]
      congr 1
      omega
    · rw [if_neg h0, ih (n / 10) _ (by omega)]
      simp only [List.foldl_cons]
      rw [digitChar_toNat _ (Nat.mod_lt _ (by decide))]
      congr 1
      omega

theorem repr_injective {a b : Nat} (h : Nat.repr a = Nat.repr b) : a = b := by
  have ha := foldl_toDigitsCore (a + 1) a [] (by omega)
  have hb := foldl_toDigitsCore (b + 1) b [] (by omega)
  simp only [List.foldl_nil] at ha hb
  have hd : Nat.toDigits 10 a = Nat.toDigits 10 b := by
    have := congrArg String.data h
    simpa [Nat.repr, List.asString] using this
  unfold Nat.toDigits at hd
  rw [← ha, ← hb, hd]

theorem stateName_injective {a b : Nat} (h : stateName a = stateName b) : a = b := by
  unfold stateName at h
  have hd := congrArg String.data h
  simp only [String.data_append] at hd
  have := List.append_cancel_left hd
  apply repr_injective
  exact String.ext this


theorem contains_stateName (names : List String) (i : Nat) :
    names.contains (stateName i) = true ↔ stateName i ∈ names := by
  simp

/-- The loop passes over the indices whose names are taken and stops at the first free one. -/
theorem nameSearchLoop_found (names : List String) :
    ∀ (d fuel index k : Nat), index + d = k → d < fuel → k < 2147483647 →
      (∀ j, index ≤ j → j < k → stateName j ∈ names) → stateName k ∉ names →
      nameSearchLoop names fuel index = NameSearch.found (stateName k)
  | 0, fuel, index, k, hk, hf, hlt, _, hfree => by
    obtain ⟨f, rfl⟩ : ∃ f, fuel = f + 1 := ⟨fuel - 1, by omega⟩
    have e : index = k := by omega
    subst e
    rw [nameSearchLoop, if_neg (by omega),
      if_neg (by rw [contains_stateName]; exact hfree)]
  | d + 1, fuel, index, k, hk, hf, hlt, htaken, hfree => by
    obtain ⟨f, rfl⟩ : ∃ f, fuel = f + 1 := ⟨fuel - 1, by omega⟩
    rw [nameSearchLoop, if_neg (by omega),
      if_pos ((contains_stateName names index).2 (htaken index (Nat.le_refl _) (by omega)))]
    exact nameSearchLoop_found names d f (index + 1) k (by omega) (by omega) hlt
      (fun j h1 h2 => htaken j (by omega) h2) hfree

/-- When every name up to `State2147483646` is taken, the loop reaches the increment of
`index = 2147483647`. -/
theorem nameSearchLoop_overflow (names : List String) :
    ∀ (d fuel index : Nat), index + d = 2147483647 → d < fuel →
      (∀ j, index ≤ j → j < 2147483647 → stateName j ∈ names) →
      nameSearchLoop names fuel index = NameSearch.overflow
  | 0, fuel, index, hk, hf, _ => by
    obtain ⟨f, rfl⟩ : ∃ f, fuel = f + 1 := ⟨fuel - 1, by omega⟩
    rw [nameSearchLoop, if_pos (by omega)]
  | d + 1, fuel, index, hk, hf, htaken => by
    obtain ⟨f, rfl⟩ : ∃ f, fuel = f + 1 := ⟨fuel - 1, by omega⟩
    rw [nameSearchLoop, if_neg (by omega),
      if_pos ((contains_stateName names index).2 (htaken index (Nat.le_refl _) (by omega)))]
    exact nameSearchLoop_overflow names d f (index + 1) (by omega) (by omega)
      (fun j h1 h2 => htaken j (by omega) h2)

theorem mem_firstStateNames {n : Nat} {s : String} :
    s ∈ firstStateNames n ↔ ∃ i, i < n ∧ stateName (i + 1) = s := by
  simp [firstStateNames]

theorem length_firstStateNames (n : Nat) : (firstStateNames n).length = n := by
  simp [firstStateNames]

theorem nodup_firstStateNames (n : Nat) : (firstStateNames n).Nodup := by
  unfold firstStateNames
  refine (List.nodup_range n).map ?_
  intro a b h
  have := stateName_injective h
  omega

/-- Among `State1`, ..., `State<n+1>` one name is not in a list of `n` names. -/
theorem exists_free_stateName (names : List String) :
    ∃ k, 1 ≤ k ∧ k ≤ names.length + 1 ∧ stateName k ∉ names := by
  by_contra hno
  have hsub : firstStateNames (names.length + 1) ⊆ names := by
    intro s hs
    obtain ⟨i, hi, rfl⟩ := mem_firstStateNames.1 hs
    by_contra hfree
    exact hno ⟨i + 1, by omega, by omega, hfree⟩
  have hle := (List.subperm_of_subset (nodup_firstStateNames _) hsub).length_le
  rw [length_firstStateNames] at hle
  omega

/-- C29, amended: for every list of fewer than `2147483646` existing state names, the search
loop of `addState` ends with the name `State<k>`, where `k ≥ 1` is the smallest number whose
name `State<k>` is not in the list; so the chosen name is not an existing state name. -/
theorem newStateName_fresh (modelStateNames : List String)
    (h : modelStateNames.length < 2147483646) :
    ∃ k, 1 ≤ k ∧ newStateName modelStateNames = NameSearch.found (stateName k) ∧
      stateName k ∉ modelStateNames ∧
      ∀ j, 1 ≤ j → j < k → stateName j ∈ modelStateNames := by
  classical
  have hex : ∃ k, 1 ≤ k ∧ k ≤ modelStateNames.length + 1 ∧ stateName k ∉ modelStateNames :=
    exists_free_stateName modelStateNames
  obtain ⟨h1, h2, h3⟩ := Nat.find_spec hex
  have hmin : ∀ j, 1 ≤ j → j < Nat.find hex → stateName j ∈ modelStateNames := by
    intro j hj1 hj2
    by_contra hfree
    exact Nat.find_min hex hj2 ⟨hj1, by omega, hfree⟩
  refine ⟨Nat.find hex, h1, ?_, h3, hmin⟩
  unfold newStateName
  exact nameSearchLoop_found modelStateNames (Nat.find hex - 1) _ 1 (Nat.find hex) (by omega)
    (by omega) (by omega) hmin h3

theorem newStateName_fresh_witness :
    ∃ k, 1 ≤ k ∧ newStateName ["State1", "base", "State3", "State2"] =
        NameSearch.found (stateName k) ∧
      stateName k ∉ ["State1", "base", "State3", "State2"] ∧
      ∀ j, 1 ≤ j → j < k → stateName j ∈ ["State1", "base", "State3", "State2"] :=
  newStateName_fresh ["State1", "base", "State3", "State2"] (by decide)

/-- C29, as stated, fails: when the existing names are `State1`, ..., `State2147483646`, the
smallest free name is `State2147483647`, but the loop reaches `index = 2147483647` and its
`index++` overflows the `int`: no name is chosen by a defined computation. -/
theorem newStateName_overflows :
    stateName 2147483647 ∉ firstStateNames 2147483646 ∧
      (∀ j, 1 ≤ j → j < 2147483647 → stateName j ∈ firstStateNames 2147483646) ∧
      newStateName (firstStateNames 2147483646) = NameSearch.overflow := by
  have htaken : ∀ j, 1 ≤ j → j < 2147483647 → stateName j ∈ firstStateNames 2147483646 := by
    intro j h1 h2
    exact mem_firstStateNames.2 ⟨j - 1, by omega, by rw [Nat.sub_add_cancel h1]⟩
  refine ⟨?_, htaken, ?_⟩
  · intro hm
    obtain ⟨i, hi, e⟩ := mem_firstStateNames.1 hm
    have := stateName_injective e
    omega
  · unfold newStateName
    rw [length_firstStateNames]
    exact nameSearchLoop_overflow _ 2147483646 _ 1 (by omega) (by omega) htaken


end QmlDesigner
